import Mathlib

/-!
Verification development for the `labware-scripts` repository: a shallow
embedding in Lean 4 of the pure transformation cores of its Python scripts
(CSV-driven dimension importer, frustum-stack importer, version/draft
manager, geometry-equivalence checker, sibling-group detector, well-depth
setter, and the two schema migrators), together with theorems settling the
stated claims about them.

Modelling conventions:
* Python `Decimal` values are modelled as exact rationals (`ℚ`); the scripts
  only perform addition, subtraction, multiplication and halving on them.
* Python dicts are modelled as association lists (duplicate-free, as Python
  dicts are) with Python's update semantics: `setKey` replaces the value of
  an existing key in place, else appends the binding at the end.
* Fallible code (`raise` / caught exceptions) is modelled with
  `Except String`.
-/

namespace Labware

/-- Python `d.get(k)` lookup on an association-list dict. -/
def getKey? {α : Type} : List (String × α) → String → Option α
  | [], _ => none
  | p :: t, k => if p.1 = k then some p.2 else getKey? t k

/-- Python `d[k] = v` on an association-list dict: replace the value at `k`
in place if present, else append the new binding at the end. -/
def setKey {α : Type} : List (String × α) → String → α → List (String × α)
  | [], k, v => [(k, v)]
  | p :: t, k, v => if p.1 = k then (k, v) :: t else p :: setKey t k v

/-- Python `k in d`. -/
def hasKey {α : Type} (d : List (String × α)) (k : String) : Bool :=
  (getKey? d k).isSome

/-- A Python dict with string keys, as an association list. -/
abbrev PyDict (α : Type) : Type := List (String × α)

/-! ## `import_frusta_from_hw.py`: `split_at_indices` -/

/-- Python list slice `source[b:e]` for nonnegative bounds. -/
def pySlice {α : Type} (source : List α) (b e : ℕ) : List α :=
  (source.take e).drop b

/-- `itertools.pairwise`: consecutive pairs of a list. -/
def pairwiseL {α : Type} (l : List α) : List (α × α) :=
  l.zip l.tail

/-- `split_at_indices` from `import_frusta_from_hw.py`: slices of `source`
between the consecutive boundaries `0, indices..., None`.  The final `None`
bound of the Python slice is modelled as `source.length`, which yields the
same slice for every start bound. -/
def split_at_indices {α : Type} (source : List α) (indices : List ℕ) :
    List (List α) :=
  (pairwiseL (0 :: (indices ++ [source.length]))).map
    (fun p => pySlice source p.1 p.2)

/-- Last element of `l`, or `d` when `l` is empty. -/
def lastOr {α : Type} (d : α) : List α → α
  | [] => d
  | x :: t => lastOr x t

/-! ## `definition_groups/verify_same_geometry.py`: `geometries_equal` -/

/-- `geometries_equal` from `verify_same_geometry.py`.  Geometry dicts are
association lists; when both sides have exactly one entry the code compares
`next(iter(...values()))`, i.e. the single values (not the keys); in every
other case it returns `False` ("not implemented"). -/
def geometries_equal {α : Type} [DecidableEq α] :
    List (String × α) → List (String × α) → Bool
  | [a], [b] => a.2 = b.2
  | _, _ => false

/-! ## `definition_groups/detect_sibling_definitions.py`: `get_group_id` -/

def PARENT_SIGNIFIERS : List String := ["aluminumblock", "tuberack", "adapter"]

/-- Split a character list at every occurrence of `sep`, keeping empty
pieces — the semantics of Python `str.split(sep)` for a one-character
separator. -/
def splitChar (sep : Char) : List Char → List (List Char)
  | [] => [[]]
  | c :: t =>
    let r := splitChar sep t
    if c = sep then [] :: r
    else
      match r with
      | [] => [[c]]
      | h :: t2 => (c :: h) :: t2

/-- Python `s.split(sep)` for a one-character separator. -/
def pySplit (sep : Char) (s : String) : List String :=
  (splitChar sep s.toList).map (fun cs => String.mk cs)

/-- Python `str.isnumeric`, restricted to the ASCII alphabet that labware
load names are drawn from (where it coincides with "nonempty and all
digits"). -/
def isnumericStr (s : String) : Bool :=
  !s.isEmpty && s.toList.all Char.isDigit

/-- The token list of `get_group_id` after the filtering step: split the
load name on underscores, then drop tokens that are purely numeric or in
the noise set `{"flat", "full", "skirt", "pcr"}`. -/
def groupParts (load_name : String) : List String :=
  (pySplit '_' load_name).filter
    (fun part => !(isnumericStr part || decide (part ∈ ["flat", "full", "skirt", "pcr"])))

/-- `get_group_id` from `detect_sibling_definitions.py`: after filtering,
drop everything up to and including the first parent-signifier token (if
any), and join the rest with underscores.  The Python
`next(...)`/`StopIteration` idiom is modelled by the `any` guard. -/
def get_group_id (load_name : String) : String :=
  let parts := groupParts load_name
  let sigP := fun part => decide (part ∈ PARENT_SIGNIFIERS)
  let kept := if parts.any sigP then parts.drop (parts.findIdx sigP + 1) else parts
  String.intercalate "_" kept

/-! ## `import_frusta_from_hw.py`: cross-section records and segment
synthesis (`to_geometry_def`) -/

/-- A validated cross-section record: the tagged union
`RectCrossSection | SphericalSection | CircleCrossSection` discriminated on
the `TYPE` column.  Fields typed `Literal[""]` in the source (forced-blank
fields) carry no information and are omitted; `pattern_qty` is an integer
or the blank string (modelled as `none`). -/
inductive CrossSection : Type
  | rect (dist_from_bottom : ℚ) (pattern_qty : Option Int) (x_dim y_dim : ℚ)
  | circle (dist_from_bottom : ℚ) (pattern_qty : Option Int) (diameter : ℚ)
  | sph (dist_from_bottom : ℚ) (pattern_qty : Option Int)
      (sphere_height sphere_diameter : ℚ)
  deriving DecidableEq

def CrossSection.pattern_qty : CrossSection → Option Int
  | .rect _ pq _ _ => pq
  | .circle _ pq _ => pq
  | .sph _ pq _ _ => pq

/-- `pattern_qty not in ("", 1)` from `to_geometry_def`. -/
def patternDeclared (pq : Option Int) : Bool :=
  !(pq = none || pq = some (1 : Int))

/-- An output geometry segment (the shared-data `WellSegment` variants used
by `to_geometry_def`, with the fields the script populates). -/
inductive WellSegment : Type
  | cuboidal (topXDimension topYDimension topHeight
      bottomXDimension bottomYDimension bottomHeight : ℚ) (xCount yCount : ℕ)
  | conical (topDiameter topHeight bottomDiameter bottomHeight : ℚ)
      (xCount yCount : ℕ)
  | squaredcone (circleDiameter rectangleXDimension rectangleYDimension
      topHeight bottomHeight : ℚ) (xCount yCount : ℕ)
  | spherical (radiusOfCurvature topHeight bottomHeight : ℚ)
      (xCount yCount : ℕ)
  deriving DecidableEq

/-- The body of `to_geometry_def`'s loop: the segment produced for one
consecutive `(below, above)` cross-section pair, matching the shape pairs
in the source's order; unhandled pairings raise `ValueError`. -/
def segmentFor (below above : CrossSection) : Except String WellSegment :=
  let hasP := patternDeclared above.pattern_qty || patternDeclared below.pattern_qty
  let xc : ℕ := if hasP then 99999 else 1
  let yc : ℕ := if hasP then 99999 else 1
  match below, above with
  | .rect bd _ bx b2, .rect ad _ ax a2 =>
    .ok (.cuboidal ax a2 ad bx b2 bd xc yc)
  | .circle bd _ bdi, .circle ad _ adi =>
    .ok (.conical adi ad bdi bd xc yc)
  | .circle bd _ bdi, .rect ad _ ax a2 =>
    .ok (.squaredcone bdi ax a2 ad bd xc yc)
  | .sph bd _ bh bdia, _ =>
    .ok (.spherical (bdia / 2) (bd + bh) bd xc yc)
  | _, _ => .error "Unhandled section pair"

/-- `to_geometry_def` from `import_frusta_from_hw.py`: one segment per
consecutive pair of cross-sections, in stacking order. -/
def to_geometry_def (sections : List CrossSection) :
    Except String (List WellSegment) :=
  (pairwiseL sections).mapM (fun p => segmentFor p.1 p.2)

/-! ## `set_well_depth_from_innerlabwaregeometry.py`: `process` -/

/-- The parts of a labware definition that `process` touches: the well map
(each well a dict of scalar fields of type `σ`), the inner-geometry map
(each entry a dict whose `"sections"` key holds a list of section dicts),
and everything else opaque in `rest`. -/
structure DepthDefinition (σ ρ : Type) where
  wells : PyDict (PyDict σ)
  innerLabwareGeometry : PyDict (PyDict (List (PyDict σ)))
  rest : ρ

/-- `process` from `set_well_depth_from_innerlabwaregeometry.py`: if
`innerLabwareGeometry` has exactly one entry, set every well's `depth` to
the first section's `topHeight`; otherwise return the (deep-copied input)
definition unchanged.  Missing `"sections"`/`"topHeight"` keys or an empty
section list raise in Python and are modelled as errors. -/
def process {σ ρ : Type} (definition : DepthDefinition σ ρ) :
    Except String (DepthDefinition σ ρ) :=
  match definition.innerLabwareGeometry with
  | [g] =>
    match getKey? g.2 "sections" with
    | none => .error "KeyError: sections"
    | some sections =>
      match sections with
      | [] => .error "IndexError: sections list is empty"
      | s0 :: _ =>
        match getKey? s0 "topHeight" with
        | none => .error "KeyError: topHeight"
        | some th =>
          .ok { definition with
                wells := definition.wells.map (fun p => (p.1, setKey p.2 "depth" th)) }
  | _ => .ok definition

/-! ## `latest_versions.py`: the highest-version scan and `--commit-draft` -/

/-- One numbered definition file resolved by the version manager:
`(load name, version, parsed JSON content)`.  File contents are modelled by
their parsed JSON value (the script compares files with
`json.loads(a) != json.loads(b)`), of an arbitrary type `α` with decidable
equality. -/
abbrev VersionEntry (α : Type) : Type := String × ℕ × α

/-- One iteration of the scan loop in `main` that maintains
`highest_numbered_versions`: record the entry unless the map already holds
this load name at a version that is not smaller. -/
def scanStep {α : Type} (m : PyDict (ℕ × α)) (e : VersionEntry α) :
    PyDict (ℕ × α) :=
  match getKey? m e.1 with
  | none => setKey m e.1 (e.2.1, e.2.2)
  | some (v0, _) => if e.2.1 > v0 then setKey m e.1 (e.2.1, e.2.2) else m

/-- The scan loop over all numbered versions, in input order. -/
def scanHighest {α : Type} : List (VersionEntry α) → PyDict (ℕ × α) → PyDict (ℕ × α)
  | [], m => m
  | e :: rest, m => scanHighest rest (scanStep m e)

/-- `highest_numbered_versions` after the scan. -/
def highestVersions {α : Type} (entries : List (VersionEntry α)) : PyDict (ℕ × α) :=
  scanHighest entries []

/-- What `--commit-draft` does with one draft file. -/
inductive DraftAction : Type
  | deleted
  | renamedTo (version : ℕ)
  deriving DecidableEq

/-- The `--commit-draft` branch of `main`, for one draft `(name, content)`:
if no highest numbered version exists, or the draft's parsed content
differs from the highest version's, rename the draft to the next version
number; otherwise delete it. -/
def commitDraftAction {α : Type} [DecidableEq α] (highest : PyDict (ℕ × α))
    (name : String) (draft : α) : DraftAction :=
  match getKey? highest name with
  | none => .renamedTo 1
  | some (v, c) => if draft ≠ c then .renamedTo (v + 1) else .deleted

/-! ## `import_dimensions_from_hw.py`: `rewrite_definition` and the batch
loop -/

/-- A scalar handled by the dimension importer: a `Decimal` (exact
rational) or a string such as `"N/A"` (the `Decimal | str` union fields of
`DefinitionInfo`). -/
inductive DVal : Type
  | num (q : ℚ)
  | str (s : String)
  deriving DecidableEq

/-- A 3-vector such as `cornerOffsetFromSlot` (the labware schema fixes its
keys to exactly `x`, `y`, `z`). -/
structure Vec3 where
  x : ℚ
  y : ℚ
  z : ℚ
  deriving DecidableEq

/-- `DefinitionInfo`: one validated CSV row.  Source fields typed
`Decimal | str` become `DVal`; plain `Decimal` fields become `ℚ`. -/
structure DefinitionInfo where
  api_load_name : String
  hw_depth : ℚ
  hw_diameter : DVal
  hw_x_size : DVal
  hw_y_size : DVal
  hw_length : DVal
  hw_width : ℚ
  hw_height : ℚ
  hw_x_offset : ℚ
  hw_y_offset : ℚ
  hw_x_spacing : DVal
  hw_y_spacing : DVal
  deriving DecidableEq

/-- The parts of a labware definition that `rewrite_definition` reads and
writes.  A missing `cornerOffsetFromSlot` key (Python `KeyError`) is
modelled as `none`. -/
structure DimDefinition where
  cornerOffsetFromSlot : Option Vec3
  ordering : List (List String)
  wells : PyDict (PyDict DVal)
  dimensions : PyDict DVal
  deriving DecidableEq

/-- The depth/diameter/footprint update at the top of the well loop body:
set `depth`, then either `diameter` or `xDimension`+`yDimension`, else
raise. -/
def rwWellDims (info : DefinitionInfo) (w : PyDict DVal) :
    Except String (PyDict DVal) :=
  if hasKey w "diameter" then
    .ok (setKey w "diameter" info.hw_diameter)
  else if hasKey w "xDimension" && hasKey w "yDimension" then
    .ok (setKey (setKey w "xDimension" info.hw_x_size) "yDimension" info.hw_y_size)
  else
    .error "Expected well to either have diameter, or xDimension+yDimension."

/-- The x-spacing rule of the well loop: forced `0` when there is exactly
one column, else the CSV's numeric value, else `ValueError`. -/
def xSpacing (info : DefinitionInfo) (col_count : ℕ) : Except String ℚ :=
  if col_count = 1 then .ok 0
  else
    match info.hw_x_spacing with
    | .num q => .ok q
    | .str _ =>
      .error "Labware has multiple columns but CSV did not provide valid x spacing"

/-- The y-spacing rule, symmetric to `xSpacing` with the current column's
row count. -/
def ySpacing (info : DefinitionInfo) (row_count : ℕ) : Except String ℚ :=
  if row_count = 1 then .ok 0
  else
    match info.hw_y_spacing with
    | .num q => .ok q
    | .str _ =>
      .error "Labware has multiple rows but CSV did not provide valid y spacing"

/-- The whole loop body of `rewrite_definition` for one well: depth and
diameter/footprint update, spacing checks, then
`x = hw_x_offset + x_spacing*col_index`,
`y = hw_width - hw_y_offset - y_spacing*row_index`,
`z = hw_height - hw_depth`. -/
def rewriteWell (info : DefinitionInfo) (col_count row_count cIdx rIdx : ℕ)
    (well : PyDict DVal) : Except String (PyDict DVal) :=
  let w1 := setKey well "depth" (.num info.hw_depth)
  match rwWellDims info w1 with
  | .error e => .error e
  | .ok w2 =>
    match xSpacing info col_count with
    | .error e => .error e
    | .ok xs =>
      match ySpacing info row_count with
      | .error e => .error e
      | .ok ys =>
        .ok (setKey (setKey (setKey w2
              "x" (.num (info.hw_x_offset + xs * cIdx)))
              "y" (.num (info.hw_width - info.hw_y_offset - ys * rIdx)))
              "z" (.num (info.hw_height - info.hw_depth)))

/-- One well of the nested loop: `(col_index, row_count of its column,
row_index, well name)`. -/
abbrev WellCell : Type := ℕ × ℕ × ℕ × String

/-- Pair each element with its index, starting from `i`. -/
def withIdx {α : Type} : ℕ → List α → List (ℕ × α)
  | _, [] => []
  | i, x :: t => (i, x) :: withIdx (i + 1) t

/-- The cells visited by the nested `for` loops of `rewrite_definition`, in
visiting order (columns outer, rows inner). -/
def orderingCells (ordering : List (List String)) : List WellCell :=
  (withIdx 0 ordering).flatMap
    (fun p => (withIdx 0 p.2).map (fun q => (p.1, p.2.length, q.1, q.2)))

/-- One well-loop iteration acting on the wells dict: look the well up
(`KeyError` if absent), rewrite it, store it back. -/
def processCell (info : DefinitionInfo) (col_count : ℕ) (cell : WellCell)
    (ws : PyDict (PyDict DVal)) : Except String (PyDict (PyDict DVal)) :=
  match getKey? ws cell.2.2.2 with
  | none => .error "KeyError: well name not in wells"
  | some well =>
    match rewriteWell info col_count cell.2.1 cell.1 cell.2.2.1 well with
    | .error e => .error e
    | .ok w => .ok (setKey ws cell.2.2.2 w)

/-- The nested loops of `rewrite_definition`, flattened into visiting
order; the first exception aborts the rewrite. -/
def runCells (info : DefinitionInfo) (col_count : ℕ) :
    List WellCell → PyDict (PyDict DVal) → Except String (PyDict (PyDict DVal))
  | [], ws => .ok ws
  | cell :: rest, ws =>
    match processCell info col_count cell ws with
    | .error e => .error e
    | .ok ws1 => runCells info col_count rest ws1

/-- `rewrite_definition` from `import_dimensions_from_hw.py` as a pure
function: refuse a nonzero (or missing) `cornerOffsetFromSlot`, rewrite
every well in row-major column order, then update the top-level bounding
dimensions. -/
def rewrite_definition (definition : DimDefinition) (new_info : DefinitionInfo) :
    Except String DimDefinition :=
  match definition.cornerOffsetFromSlot with
  | none => .error "KeyError: cornerOffsetFromSlot"
  | some cofs =>
    if cofs ≠ ⟨0, 0, 0⟩ then
      .error "Definition has a nonzero cornerOffsetFromSlot and this script isn't smart enough to account for that."
    else
      match runCells new_info definition.ordering.length
              (orderingCells definition.ordering) definition.wells with
      | .error e => .error e
      | .ok ws2 =>
        .ok { definition with
              wells := ws2,
              dimensions :=
                setKey (setKey (setKey definition.dimensions
                  "xDimension" new_info.hw_length)
                  "yDimension" (.num new_info.hw_width))
                  "zDimension" (.num new_info.hw_height) }

/-- The state of the `__main__` batch loop that C7 is about: the definition
files on disk (latest file per load name) and the reported buckets. -/
structure BatchState where
  files : PyDict DimDefinition
  successes : List (ℕ × String)
  failed_rewrites : List (ℕ × String × String)
  deriving DecidableEq

/-- One iteration of the `__main__` loop for a successfully extracted row:
look up the latest definition (recording a failure when none exists),
rewrite it, and only on success write the file back; any exception leaves
the files untouched and is recorded against the row's load name. -/
def processRow (st : BatchState) (row_index : ℕ) (info : DefinitionInfo) :
    BatchState :=
  match getKey? st.files info.api_load_name with
  | none =>
    { st with failed_rewrites :=
        st.failed_rewrites ++ [(row_index, info.api_load_name, "No definitions found")] }
  | some definition =>
    match rewrite_definition definition info with
    | .error e =>
      { st with failed_rewrites :=
          st.failed_rewrites ++ [(row_index, info.api_load_name, e)] }
    | .ok d2 =>
      { files := setKey st.files info.api_load_name d2,
        successes := st.successes ++ [(row_index, info.api_load_name)],
        failed_rewrites := st.failed_rewrites }

/-! ## `migrate_to_extents.py` and `migrate_labware_defs.py`: schema
migrators -/

/-- A parsed JSON value, as handled generically by `migrate_to_extents`
(which iterates over all top-level keys of a definition). -/
inductive JValue : Type
  | num (q : ℚ)
  | str (s : String)
  | bool (b : Bool)
  | null
  | arr (xs : List JValue)
  | obj (fields : List (String × JValue))

/-- `v[k]` for an object value, required to be a number (the migrator
immediately uses these values in arithmetic; anything else raises). -/
def jNum? : JValue → String → Option ℚ
  | .obj fields, k =>
    match getKey? fields k with
    | some (.num q) => some q
    | _ => none
  | _, _ => none

/-- One well of `migrate_to_extents`'s loop:
`new_well["y"] = -(y_dimension - well_data["y"])`. -/
def flipWellJ (y_dimension : ℚ) : JValue → Option JValue
  | .obj fields =>
    match getKey? fields "y" with
    | some (.num y) => some (.obj (setKey fields "y" (.num (-(y_dimension - y)))))
    | _ => none
  | _ => none

/-- The wells loop of `migrate_to_extents`. -/
def flipWellsJ (y_dimension : ℚ) :
    List (String × JValue) → Option (List (String × JValue))
  | [] => some []
  | (n, wv) :: t =>
    match flipWellJ y_dimension wv, flipWellsJ y_dimension t with
    | some w2, some t2 => some ((n, w2) :: t2)
    | _, _ => none

/-- The key-preserving reconstruction loop at the end of
`migrate_to_extents`: drop `cornerOffsetFromSlot`, replace `dimensions`
with `extents` followed by `features`, keep everything else in order. -/
def rebuildKeys (d : PyDict JValue) (new_extents features : JValue) :
    PyDict JValue :=
  d.flatMap (fun p =>
    if p.1 = "cornerOffsetFromSlot" then []
    else if p.1 = "dimensions" then
      [("extents", new_extents), ("features", features)]
    else [p])

/-- `migrate` from `migrate_to_extents.py`: no-op when `extents` is already
present; otherwise derive the `extents` bounding box and `features`
footprint from `cornerOffsetFromSlot` and `dimensions`, flip every well's
`y`, and re-emit the definition with the old fields removed/replaced in
place.  (The nonzero-cornerOffset case only prints a warning in the source
and proceeds identically, so it is not distinguished here.) -/
def migrate_to_extents (definition : PyDict JValue) :
    Except String (PyDict JValue) :=
  if hasKey definition "extents" then .ok definition
  else
    match getKey? definition "cornerOffsetFromSlot" with
    | none => .error "KeyError: cornerOffsetFromSlot"
    | some cofs =>
      match jNum? cofs "x" with
      | none => .error "TypeError: cornerOffsetFromSlot x"
      | some cx =>
        match jNum? cofs "y" with
        | none => .error "TypeError: cornerOffsetFromSlot y"
        | some cy =>
          match jNum? cofs "z" with
          | none => .error "TypeError: cornerOffsetFromSlot z"
          | some cz =>
            match getKey? definition "dimensions" with
            | none => .error "KeyError: dimensions"
            | some dims =>
              match jNum? dims "xDimension" with
              | none => .error "TypeError: xDimension"
              | some x_dimension =>
                match jNum? dims "yDimension" with
                | none => .error "TypeError: yDimension"
                | some y_dimension =>
                  match jNum? dims "zDimension" with
                  | none => .error "TypeError: zDimension"
                  | some z_dimension =>
                    match getKey? definition "wells" with
                    | none => .error "KeyError: wells"
                    | some (.obj wells) =>
                      match flipWellsJ y_dimension wells with
                      | none => .error "KeyError/TypeError: well y"
                      | some new_wells =>
                        let cofs_y_inverse := -cy
                        let y_inverse := -y_dimension
                        let new_extents := JValue.obj [("total", JValue.obj
                          [("backLeftBottom", JValue.obj
                            [("x", .num cx), ("y", .num cofs_y_inverse),
                             ("z", .num cz)]),
                           ("frontRightTop", JValue.obj
                            [("x", .num (cx + x_dimension)),
                             ("y", .num (cofs_y_inverse + y_inverse)),
                             ("z", .num (cz + z_dimension))])])]
                        let features := JValue.obj [("slotFootprintAsChild",
                          JValue.obj
                          [("z", .num 0),
                           ("backLeft", JValue.obj
                            [("x", .num 0), ("y", .num 0)]),
                           ("frontRight", JValue.obj
                            [("x", .num x_dimension), ("y", .num y_inverse)])])]
                        .ok (rebuildKeys
                          (setKey definition "wells" (.obj new_wells))
                          new_extents features)
                    | some _ => .error "AttributeError: wells is not a dict"

/-- `d[k]` of a scalar dict, required to be a number. -/
def getNum? (d : PyDict DVal) (k : String) : Option ℚ :=
  match getKey? d k with
  | some (.num q) => some q
  | _ => none

/-- `definition["wells"][name]["y"]` as used by
`move_wells_to_quadrant_4` (KeyError/TypeError modelled as `none`). -/
def wellY? (wells : PyDict (PyDict DVal)) (name : String) : Option ℚ :=
  match getKey? wells name with
  | some w => getNum? w "y"
  | none => none

/-- The flip loop of `move_wells_to_quadrant_4`:
`well["y"] = -(yDimension - well["y"])` for every well. -/
def flipWells (y_dimension : ℚ) :
    PyDict (PyDict DVal) → Option (PyDict (PyDict DVal))
  | [] => some []
  | (n, w) :: t =>
    match getNum? w "y", flipWells y_dimension t with
    | some y, some t2 =>
      some ((n, setKey w "y" (.num (-(y_dimension - y)))) :: t2)
    | _, _ => none

/-- `move_wells_to_quadrant_4` from `migrate_labware_defs.py`: compare the
back and front inset distances per column; flip all wells into quadrant 4
when every column is centered, else leave the wells alone and accumulate a
warning. -/
def moveWells (d : DimDefinition) :
    Except String (DimDefinition × List String) :=
  match getNum? d.dimensions "yDimension" with
  | none => .error "KeyError/TypeError: yDimension"
  | some y_dimension =>
    match d.ordering.mapM List.head?, d.ordering.mapM List.getLast? with
    | some back_row, some front_row =>
      match back_row.mapM (wellY? d.wells), front_row.mapM (wellY? d.wells) with
      | some back_ys, some front_ys =>
        let back_insets := back_ys.map (fun y => y_dimension - y)
        let differences := List.zipWith (fun b f => b - f) back_insets front_ys
        if differences.all (fun q => decide (q = 0)) then
          match flipWells y_dimension d.wells with
          | none => .error "KeyError/TypeError: well y"
          | some ws2 => .ok ({ d with wells := ws2 }, [])
        else
          .ok (d, ["Wells are not centered in the y-direction within the labware bounding box."])
      | _, _ => .error "KeyError/TypeError: well y"
    | _, _ => .error "IndexError: empty column"

/-- `remove_corner_offset_from_slot` from `migrate_labware_defs.py`: delete
the key when it is the zero vector (a missing key raises `KeyError`), else
accumulate a warning. -/
def removeCornerOffset (d : DimDefinition) :
    Except String (DimDefinition × List String) :=
  match d.cornerOffsetFromSlot with
  | none => .error "KeyError: cornerOffsetFromSlot"
  | some cofs =>
    if cofs = ⟨0, 0, 0⟩ then
      .ok ({ d with cornerOffsetFromSlot := none }, [])
    else
      .ok (d, ["cornerOffsetFromSlot is non-zero"])

/-- `migrate` from `migrate_labware_defs.py`: move wells to quadrant 4,
then remove the corner offset, accumulating warnings. -/
def migrate_labware_defs (d : DimDefinition) :
    Except String (DimDefinition × List String) :=
  match moveWells d with
  | .error e => .error e
  | .ok (d1, w1) =>
    match removeCornerOffset d1 with
    | .error e => .error e
    | .ok (d2, w2) => .ok (d2, w1 ++ w2)

/-! ## `import_frusta_from_hw.py`: the transposed-CSV `parse` -/

/-- A position within a CSV file (0-based), from `find_csv_header`. -/
structure CSVCoordinate where
  row_index : ℕ
  col_index : ℕ
  deriving DecidableEq

/-- `normalize_header` from `find_csv_header`: lowercase and collapse
newlines to spaces. -/
def normalizeHeader (s : String) : String :=
  String.mk (s.toList.map (fun c => if c.toLower = '\n' then ' ' else c.toLower))

/-- All cells whose normalized text matches the normalized header text. -/
def findMatchingCells (csv_rows : List (List String)) (header_text : String) :
    List CSVCoordinate :=
  (withIdx 0 csv_rows).flatMap (fun rp =>
    (withIdx 0 rp.2).flatMap (fun cp =>
      if normalizeHeader cp.2 = normalizeHeader header_text then
        [⟨rp.1, cp.1⟩] else []))

/-- `find_csv_header`: the unique matching cell, else `ValueError`. -/
def find_csv_header (csv_rows : List (List String)) (header_text : String) :
    Except String CSVCoordinate :=
  match findMatchingCells csv_rows header_text with
  | [cell] => .ok cell
  | _ => .error "ValueError: expected exactly 1 matching header cell"

/-- Python truthiness test `row[col] == "" or row[col].isspace()` used to
find band start rows. -/
def isBlankCell (s : String) : Bool :=
  s = "" || (!s.isEmpty && s.toList.all Char.isWhitespace)

/-- The indices (into the full CSV) of rows whose API-load-name cell is
non-blank, below the header row; a row too short to have that cell raises
`IndexError`. -/
def startRowsAux (apiCol : ℕ) :
    List (ℕ × List String) → Except String (List ℕ)
  | [] => .ok []
  | (ri, row) :: t =>
    match row[apiCol]? with
    | none => .error "IndexError: row has no API-load-name cell"
    | some cellv =>
      match startRowsAux apiCol t with
      | .error e => .error e
      | .ok rest => .ok (if isBlankCell cellv then rest else ri :: rest)

/-- A Python list comprehension over fallible element computations: the
first exception aborts, otherwise all results are produced in order. -/
def mapExcept {α β : Type} (f : α → Except String β) :
    List α → Except String (List β)
  | [] => .ok []
  | x :: t =>
    match f x with
    | .error e => .error e
    | .ok y =>
      match mapExcept f t with
      | .error e => .error e
      | .ok ys => .ok (y :: ys)

/-- `get_labware_bands`: locate the API-load-name header, split the CSV at
each row with a non-blank load-name cell (dropping everything before the
first band), and pair each band with the load name on its first row. -/
def get_labware_bands (csv_rows : List (List String)) :
    Except String (List (String × List (List String))) :=
  match find_csv_header csv_rows "API Load Name" with
  | .error e => .error e
  | .ok api =>
    match startRowsAux api.col_index
        ((withIdx 0 csv_rows).drop (api.row_index + 1)) with
    | .error e => .error e
    | .ok indices =>
      mapExcept (fun band =>
        match band with
        | [] => .error "IndexError: empty band"
        | r0 :: _ =>
          match r0[api.col_index]? with
          | none => .error "IndexError: row has no API-load-name cell"
          | some n => .ok (n, band))
        ((split_at_indices csv_rows indices).drop 1)

/-- The shortest row length, i.e. the number of columns `zip(*rows)`
produces. -/
def minRowLen : List (List String) → ℕ
  | [] => 0
  | r :: rs => rs.foldl (fun m row => min m row.length) r.length

/-- Python `list(zip(*rows))`: the columns of the band, truncated to the
shortest row. -/
def zipCols (rows : List (List String)) : List (List String) :=
  (List.range (minRowLen rows)).map (fun j => rows.map (fun row => row.getD j ""))

/-- `itertools.takewhile(lambda column: any(column), ...)`: the columns up
to the first fully blank one (`any` is Python truthiness: some cell is a
nonempty string). -/
def columnsToParse (cols : List (List String)) : List (List String) :=
  cols.takeWhile (fun col => col.any (fun s => !(s = "")))

/-- Python `dict(zip(field_names, column))`: pair names with cells
(truncating to the shorter), later duplicates overriding earlier ones. -/
def dictZip (ks vs : List String) : List (String × String) :=
  (ks.zip vs).foldl (fun d p => setKey d p.1 p.2) []

/-- Digit run to a natural number. -/
def natVal (cs : List Char) : ℕ :=
  cs.foldl (fun n c => n * 10 + (c.toNat - '0'.toNat)) 0

/-- An unsigned decimal literal: digits with at most one point, at least
one digit (exponent forms, which the spreadsheets do not use, are not
modelled). -/
def parseUnsigned? (cs : List Char) : Option ℚ :=
  match splitChar '.' cs with
  | [ip] =>
    if ip ≠ [] ∧ ip.all Char.isDigit then some ((natVal ip : ℕ) : ℚ) else none
  | [ip, fp] =>
    if (ip ++ fp) ≠ [] ∧ ip.all Char.isDigit ∧ fp.all Char.isDigit then
      some (((natVal ip : ℕ) : ℚ) + ((natVal fp : ℕ) : ℚ) / ((10 : ℚ) ^ fp.length))
    else none
  | _ => none

/-- `Decimal(text)` as pydantic validates a `Decimal` field. -/
def parseDecimal? (s : String) : Option ℚ :=
  match s.toList with
  | '-' :: rest => (parseUnsigned? rest).map (fun q => -q)
  | '+' :: rest => parseUnsigned? rest
  | cs => parseUnsigned? cs

/-- `int(text)` as pydantic validates an `int` field. -/
def parseInt? (s : String) : Option ℤ :=
  match s.toList with
  | '-' :: rest =>
    if rest ≠ [] ∧ rest.all Char.isDigit then some (-((natVal rest : ℕ) : ℤ)) else none
  | '+' :: rest =>
    if rest ≠ [] ∧ rest.all Char.isDigit then some ((natVal rest : ℕ) : ℤ) else none
  | cs =>
    if cs ≠ [] ∧ cs.all Char.isDigit then some ((natVal cs : ℕ) : ℤ) else none

/-- The aliases of the cross-section models (identical for all three
variants). -/
def sectionAliases : List String :=
  ["DIST FROM BOTTOM", "PATTERN QTY", "TYPE", "X DIM", "Y DIM", "DIAMETER",
   "SPHERE HEIGHT", "SPHERE DIAMETER"]

/-- A required `Decimal` field. -/
def reqDecimal (d : List (String × String)) (k : String) : Except String ℚ :=
  match getKey? d k with
  | none => .error "ValidationError: missing field"
  | some s =>
    match parseDecimal? s with
    | some q => .ok q
    | none => .error "ValidationError: not a decimal"

/-- A required `Literal[""]` field: present but blank. -/
def reqBlank (d : List (String × String)) (k : String) : Except String Unit :=
  match getKey? d k with
  | none => .error "ValidationError: missing field"
  | some s => if s = "" then .ok () else .error "ValidationError: field must be blank"

/-- The `int | Literal[""]` pattern-quantity field. -/
def reqPatternQty (d : List (String × String)) : Except String (Option ℤ) :=
  match getKey? d "PATTERN QTY" with
  | none => .error "ValidationError: missing field"
  | some s =>
    if s = "" then .ok none
    else
      match parseInt? s with
      | some n => .ok (some n)
      | none => .error "ValidationError: not an int"

/-- `section_type_adapter.validate_python` on one column's dict: the tagged
union discriminated on `TYPE`, with `extra="forbid"` and per-shape
required/forced-blank fields. -/
def validateSection (d : List (String × String)) : Except String CrossSection :=
  match getKey? d "TYPE" with
  | none => .error "ValidationError: missing discriminator TYPE"
  | some ty =>
    if !(d.all (fun p => decide (p.1 ∈ sectionAliases))) then
      .error "ValidationError: extra fields forbidden"
    else if ty = "RECT" then do
      let dist ← reqDecimal d "DIST FROM BOTTOM"
      let pq ← reqPatternQty d
      let x ← reqDecimal d "X DIM"
      let y ← reqDecimal d "Y DIM"
      let _ ← reqBlank d "DIAMETER"
      let _ ← reqBlank d "SPHERE HEIGHT"
      let _ ← reqBlank d "SPHERE DIAMETER"
      .ok (.rect dist pq x y)
    else if ty = "SEMI-SPH" then do
      let dist ← reqDecimal d "DIST FROM BOTTOM"
      let pq ← reqPatternQty d
      let _ ← reqBlank d "X DIM"
      let _ ← reqBlank d "Y DIM"
      let _ ← reqBlank d "DIAMETER"
      let sh ← reqDecimal d "SPHERE HEIGHT"
      let sd ← reqDecimal d "SPHERE DIAMETER"
      .ok (.sph dist pq sh sd)
    else if ty = "CIRCLE" then do
      let dist ← reqDecimal d "DIST FROM BOTTOM"
      let pq ← reqPatternQty d
      let _ ← reqBlank d "X DIM"
      let _ ← reqBlank d "Y DIM"
      let dia ← reqDecimal d "DIAMETER"
      let _ ← reqBlank d "SPHERE HEIGHT"
      let _ ← reqBlank d "SPHERE DIAMETER"
      .ok (.circle dist pq dia)
    else
      .error "ValidationError: TYPE does not match any discriminator value"

/-- `parse` from `import_frusta_from_hw.py`: locate the `X-SECTION` column,
then for each labware band take the field names from that column and
validate every column to its right up to the first fully blank one,
yielding per load name either the full section list or the (first)
`ValidationError`. -/
def parse (csv_rows : List (List String)) :
    Except String (List (String × Except String (List CrossSection))) :=
  match find_csv_header csv_rows "X-SECTION" with
  | .error e => .error e
  | .ok cross =>
    match get_labware_bands csv_rows with
    | .error e => .error e
    | .ok bands =>
      mapExcept (fun band =>
        match (zipCols band.2)[cross.col_index]? with
        | none => .error "IndexError: no field-name column"
        | some field_names =>
          .ok (band.1,
            mapExcept (fun col => validateSection (dictZip field_names col))
              (columnsToParse ((zipCols band.2).drop (cross.col_index + 1)))))
        bands

/-! ## Theorems -/

theorem getKey_setKey_same {α : Type} (d : List (String × α)) (k : String) (v : α) :
    getKey? (setKey d k v) k = some v := by
  induction d with
  | nil => simp [setKey, getKey?]
  | cons p t ih =>
    by_cases hp : p.1 = k
    · simp [setKey, hp, getKey?]
    · simp [setKey, hp, getKey?, ih]

theorem getKey_setKey_other {α : Type} (d : List (String × α)) (k k' : String) (v : α)
    (hne : k' ≠ k) : getKey? (setKey d k v) k' = getKey? d k' := by
  have hkk : ¬(k = k') := fun h => hne h.symm
  induction d with
  | nil => simp [setKey, getKey?, hkk]
  | cons p t ih =>
    by_cases hp : p.1 = k
    · have hpk : ¬(p.1 = k') := fun h => hkk (hp ▸ h)
      simp [setKey, hp, getKey?, hpk, hkk]
    · by_cases hpk : p.1 = k'
      · simp only [setKey, if_neg hp]
        simp [getKey?, hpk]
      · simp [setKey, hp, getKey?, hpk, ih]

theorem lastOr_append_single {α : Type} (d x : α) (l : List α) :
    lastOr d (l ++ [x]) = x := by
  induction l generalizing d with
  | nil => rfl
  | cons y t ih => simpa [lastOr] using ih y

theorem lastOr_mem {α : Type} (d : α) (l : List α) :
    lastOr d l = d ∨ lastOr d l ∈ l := by
  induction l generalizing d with
  | nil => exact Or.inl rfl
  | cons y t ih =>
    rcases ih y with h | h
    · exact Or.inr (by simp [lastOr, h])
    · exact Or.inr (by simp [lastOr]; exact Or.inr h)

theorem le_lastOr_of_chain (m : ℕ) (rest : List ℕ)
    (h : List.Chain (· ≤ ·) m rest) : m ≤ lastOr m rest := by
  induction rest generalizing m with
  | nil => exact le_refl m
  | cons r t ih =>
    rcases List.chain_cons.mp h with ⟨hmr, hchain⟩
    exact le_trans hmr (ih r hchain)

theorem pySlice_self {α : Type} (source : List α) (b : ℕ) :
    pySlice source b b = [] := by
  apply List.drop_eq_nil_of_le
  simp [List.length_take]

theorem pySlice_append {α : Type} (source : List α) (b m e : ℕ)
    (h1 : b ≤ m) (h2 : m ≤ e) (h3 : e ≤ source.length) :
    pySlice source b m ++ pySlice source m e = pySlice source b e := by
  unfold pySlice
  have htt : source.take m = (source.take e).take m := by
    rw [List.take_take, min_eq_left h2]
  rw [htt]
  have hLlen : (source.take e).length = e := by
    rw [List.length_take]; omega
  have hm : ((source.take e).take m).length = m := by
    rw [List.length_take]; omega
  conv_rhs => rw [(List.take_append_drop m (source.take e)).symm]
  rw [List.drop_append_eq_append_drop, hm, Nat.sub_eq_zero_of_le h1,
    List.drop_zero]

theorem join_pairwise_slices {α : Type} (source : List α) :
    ∀ (bs : List ℕ) (b : ℕ), (∀ x ∈ bs, x ≤ source.length) →
      b ≤ source.length → List.Chain (· ≤ ·) b bs →
      ((pairwiseL (b :: bs)).map (fun p => pySlice source p.1 p.2)).flatten
        = pySlice source b (lastOr b bs) := by
  intro bs
  induction bs with
  | nil =>
    intro b _ _ _
    simp [pairwiseL, lastOr, pySlice_self]
  | cons m rest ih =>
    intro b hbound hb hchain
    rcases List.chain_cons.mp hchain with ⟨hbm, hchain2⟩
    have hms : m ≤ source.length := hbound m (by simp)
    have hrest : ∀ x ∈ rest, x ≤ source.length :=
      fun x hx => hbound x (by simp [hx])
    have hrec := ih m hrest hms hchain2
    have hlast_le : lastOr m rest ≤ source.length := by
      rcases lastOr_mem m rest with h | h
      · rw [h]; exact hms
      · exact hrest _ h
    have hpair : pairwiseL (b :: m :: rest) = (b, m) :: pairwiseL (m :: rest) := by
      simp [pairwiseL]
    rw [hpair, List.map_cons, List.flatten_cons, hrec]
    have : lastOr b (m :: rest) = lastOr m rest := rfl
    rw [this]
    exact pySlice_append source b m (lastOr m rest) hbm
      (le_lastOr_of_chain m rest hchain2) hlast_le

theorem chain_le_zero (idx : List ℕ) (hsorted : List.Sorted (· < ·) idx) :
    List.Chain (· ≤ ·) 0 idx := by
  cases idx with
  | nil => exact List.Chain.nil
  | cons h t =>
    apply List.Chain.cons (Nat.zero_le h)
    have := List.chain'_iff_pairwise.mpr hsorted
    have hc : List.Chain (· < ·) h t := this
    exact List.Chain.imp (fun a b hab => le_of_lt hab) hc

theorem chain_le_append_last :
    ∀ (idx : List ℕ) (b len : ℕ), List.Chain (· ≤ ·) b idx →
      lastOr b idx ≤ len → List.Chain (· ≤ ·) b (idx ++ [len])
  | [], b, len, _, hlast => List.Chain.cons hlast List.Chain.nil
  | m :: rest, b, len, hchain, hlast => by
    rcases List.chain_cons.mp hchain with ⟨hbm, hchain2⟩
    exact List.Chain.cons hbm
      (chain_le_append_last rest m len hchain2 hlast)

theorem pairwiseL_take {α : Type} :
    ∀ (l : List α) (n : ℕ), (pairwiseL l).take n = pairwiseL (l.take (n + 1))
  | [], n => by simp [pairwiseL]
  | [x], n => by simp [pairwiseL]
  | x :: y :: t, 0 => by simp [pairwiseL]
  | x :: y :: t, m + 1 => by
    have ih := pairwiseL_take (y :: t) m
    simp only [pairwiseL, List.zip_cons_cons, List.tail_cons, List.take_cons,
      List.take_succ_cons] at ih ⊢
    exact congrArg (List.cons (x, y)) ih

theorem lastOr_take_get (l : List ℕ) :
    ∀ (n : ℕ) (d : ℕ) (hn : n < l.length), lastOr d (l.take (n + 1)) = l.get ⟨n, hn⟩ := by
  induction l with
  | nil => intro n d hn; simp at hn
  | cons x rest ih =>
    intro n d hn
    cases n with
    | zero => simp [lastOr]
    | succ m =>
      have hm : m < rest.length := by simpa using hn
      have := ih m x hm
      simpa [lastOr, List.take_succ_cons] using this

/-- C10: `split_at_indices` partitions its input.  For every list `source`
and strictly increasing list of boundary indices, each at most
`source.length`: (a) concatenating the returned sublists yields `source`;
(b) there are exactly `indices.length + 1` sublists; (c) each boundary
index starts a new sublist, in the sense that the concatenation of the
first `t + 1` sublists is exactly the prefix of `source` of length
`indices[t]`. -/
theorem split_at_indices_partitions {α : Type} (source : List α) (indices : List ℕ)
    (hsorted : List.Sorted (· < ·) indices)
    (hbound : ∀ i ∈ indices, i ≤ source.length) :
    (split_at_indices source indices).flatten = source ∧
    (split_at_indices source indices).length = indices.length + 1 ∧
    ∀ (t : ℕ) (ht : t < indices.length),
      ((split_at_indices source indices).take (t + 1)).flatten
        = source.take (indices.get ⟨t, ht⟩) := by
  have hchain0 : List.Chain (· ≤ ·) 0 indices := chain_le_zero indices hsorted
  refine ⟨?_, ?_, ?_⟩
  · -- (a) the sublists concatenate back to the source
    have hlast_le : lastOr 0 indices ≤ source.length := by
      rcases lastOr_mem 0 indices with h | h
      · simp [h]
      · exact hbound _ h
    have hchain : List.Chain (· ≤ ·) 0 (indices ++ [source.length]) :=
      chain_le_append_last indices 0 source.length hchain0 hlast_le
    have hb : ∀ x ∈ indices ++ [source.length], x ≤ source.length := by
      intro x hx
      rcases List.mem_append.mp hx with h | h
      · exact hbound x h
      · simp at h; omega
    have := join_pairwise_slices source (indices ++ [source.length]) 0 hb
      (Nat.zero_le _) hchain
    rw [split_at_indices, this, lastOr_append_single, pySlice,
      List.take_length, List.drop_zero]
  · -- (b) count of sublists
    simp [split_at_indices, pairwiseL, List.length_zip]
  · -- (c) prefixes end at the boundary indices
    intro t ht
    have htake : (0 :: (indices ++ [source.length])).take (t + 2)
        = 0 :: indices.take (t + 1) := by
      have : (indices ++ [source.length]).take (t + 1) = indices.take (t + 1) := by
        rw [List.take_append_eq_append_take]
        have : t + 1 - indices.length = 0 := by omega
        simp [this]
      simp [List.take_succ_cons, this]
    have hmap : ((split_at_indices source indices).take (t + 1))
        = (pairwiseL (0 :: indices.take (t + 1))).map
            (fun p => pySlice source p.1 p.2) := by
      rw [split_at_indices, ← List.map_take, pairwiseL_take, htake]
    rw [hmap]
    have hsorted_take : List.Sorted (· < ·) (indices.take (t + 1)) :=
      hsorted.sublist (List.take_sublist _ _)
    have hchain_take : List.Chain (· ≤ ·) 0 (indices.take (t + 1)) :=
      chain_le_zero _ hsorted_take
    have hbound_take : ∀ x ∈ indices.take (t + 1), x ≤ source.length :=
      fun x hx => hbound x (List.mem_of_mem_take hx)
    have := join_pairwise_slices source (indices.take (t + 1)) 0 hbound_take
      (Nat.zero_le _) hchain_take
    rw [this, lastOr_take_get indices t 0 ht, pySlice, List.drop_zero]

/-- C10 witness: the partition property evaluated on the concrete input
`source = [1,2,3,4,5]`, `indices = [2,4]`. -/
theorem split_at_indices_partitions_witness :
    List.Sorted (· < ·) [2, 4] ∧
    (split_at_indices ([1, 2, 3, 4, 5] : List ℕ) [2, 4]).flatten = [1, 2, 3, 4, 5] :=
  ⟨by decide,
   (split_at_indices_partitions ([1, 2, 3, 4, 5] : List ℕ) [2, 4]
     (by decide) (by decide)).1⟩

/-- C4 counterexample: the geometry-equivalence check as claimed fails on
the code.  Comparing the empty geometry dict against itself reports
not-equal (so the check is not reflexive on all dicts), and two single-key
dicts with different keys but equal values report equal (so different
single keys do not force not-equal). -/
theorem geometries_equal_counterexample :
    geometries_equal ([] : List (String × ℕ)) [] = false ∧
    geometries_equal [("a", (0 : ℕ))] [("b", (0 : ℕ))] = true := by
  constructor
  · rfl
  · rfl

/-- C4 (amended): the geometry-equivalence check is reflexive on geometry
dicts with exactly one top-level key; whenever either side does not have
exactly one key it reports not-equal; and two single-key dicts compare
equal exactly when their single values are equal — the keys themselves are
not compared. -/
theorem geometries_equal_amended {α : Type} [DecidableEq α] :
    (∀ (k : String) (v : α), geometries_equal [(k, v)] [(k, v)] = true) ∧
    (∀ (ga gb : List (String × α)), ¬(ga.length = 1 ∧ gb.length = 1) →
      geometries_equal ga gb = false) ∧
    (∀ (ka kb : String) (va vb : α),
      geometries_equal [(ka, va)] [(kb, vb)] = decide (va = vb)) := by
  refine ⟨?_, ?_, ?_⟩
  · intro k v
    simp [geometries_equal]
  · intro ga gb h
    match ga, gb with
    | [], _ => rfl
    | _ :: _ :: _, _ => rfl
    | [a], [] => rfl
    | [a], _ :: _ :: _ => rfl
    | [a], [b] => exact absurd ⟨rfl, rfl⟩ h
  · intro ka kb va vb
    simp [geometries_equal]

/-- C4 witness: the amended properties evaluated on concrete inputs. -/
theorem geometries_equal_amended_witness :
    ¬(([] : List (String × ℕ)).length = 1 ∧ ([] : List (String × ℕ)).length = 1) ∧
    geometries_equal ([] : List (String × ℕ)) [] = false :=
  ⟨by decide, (geometries_equal_amended (α := ℕ)).2.1 [] [] (by decide)⟩

/-- C5: for every load name whose filtered token list contains a parent
signifier, `get_group_id` discards the first parent-signifier token and
every token to its left, joining the remaining tokens with underscores;
and on the concrete example it yields the claimed group key. -/
theorem get_group_id_strips_parent :
    get_group_id "opentrons_96_deep_well_adapter_nest_wellplate_2ml_deep"
      = "nest_wellplate_2ml_deep" ∧
    ∀ (load_name : String),
      (∃ part ∈ groupParts load_name, part ∈ PARENT_SIGNIFIERS) →
      ∃ (i : ℕ) (hi : i < (groupParts load_name).length),
        (groupParts load_name).get ⟨i, hi⟩ ∈ PARENT_SIGNIFIERS ∧
        (∀ (j : ℕ) (hj : j < i),
          (groupParts load_name).get ⟨j, lt_trans hj hi⟩ ∉ PARENT_SIGNIFIERS) ∧
        get_group_id load_name
          = String.intercalate "_" ((groupParts load_name).drop (i + 1)) := by
  constructor
  · decide
  · intro load_name h
    set parts := groupParts load_name with hparts
    have hany : parts.any (fun part => decide (part ∈ PARENT_SIGNIFIERS)) = true := by
      rcases h with ⟨part, hmem, hsig⟩
      exact List.any_eq_true.mpr ⟨part, hmem, by simpa using hsig⟩
    have hex : ∃ part ∈ parts, (fun part => decide (part ∈ PARENT_SIGNIFIERS)) part = true := by
      rcases h with ⟨part, hmem, hsig⟩
      exact ⟨part, hmem, by simpa using hsig⟩
    set sigP := fun part => decide (part ∈ PARENT_SIGNIFIERS) with hsigP
    have hi : parts.findIdx sigP < parts.length :=
      List.findIdx_lt_length_of_exists hex
    refine ⟨parts.findIdx sigP, hi, ?_, ?_, ?_⟩
    · have := @List.findIdx_getElem _ sigP parts hi
      simpa [hsigP] using this
    · intro j hj
      have := @List.not_of_lt_findIdx _ sigP parts j hj
      simpa [hsigP] using this
    · rw [get_group_id]
      simp only [← hparts, ← hsigP, hany, if_true]

/-- C5 witness: the parent-signifier hypothesis holds on the concrete
example load name, and the stripping property follows for it. -/
theorem get_group_id_strips_parent_witness :
    (∃ part ∈ groupParts "opentrons_96_deep_well_adapter_nest_wellplate_2ml_deep",
      part ∈ PARENT_SIGNIFIERS) ∧
    ∃ (i : ℕ) (hi : i < (groupParts "opentrons_96_deep_well_adapter_nest_wellplate_2ml_deep").length),
      (groupParts "opentrons_96_deep_well_adapter_nest_wellplate_2ml_deep").get ⟨i, hi⟩
        ∈ PARENT_SIGNIFIERS ∧
      (∀ (j : ℕ) (hj : j < i),
        (groupParts "opentrons_96_deep_well_adapter_nest_wellplate_2ml_deep").get
          ⟨j, lt_trans hj hi⟩ ∉ PARENT_SIGNIFIERS) ∧
      get_group_id "opentrons_96_deep_well_adapter_nest_wellplate_2ml_deep"
        = String.intercalate "_"
            ((groupParts "opentrons_96_deep_well_adapter_nest_wellplate_2ml_deep").drop (i + 1)) :=
  ⟨by decide,
   (get_group_id_strips_parent).2 "opentrons_96_deep_well_adapter_nest_wellplate_2ml_deep"
     (by decide)⟩

theorem segmentFor_sph (dist sh sd : ℚ) (bq : Option Int) (above : CrossSection) :
    segmentFor (.sph dist bq sh sd) above
      = .ok (.spherical (sd / 2) (dist + sh) dist
          (if patternDeclared above.pattern_qty || patternDeclared bq
            then 99999 else 1)
          (if patternDeclared above.pattern_qty || patternDeclared bq
            then 99999 else 1)) := by
  cases above <;> rfl

/-- C2: for every consecutive cross-section pair whose below record is
hemispherical (`SEMI-SPH`), regardless of the above record, exactly one
spherical segment is produced, with `bottomHeight` the below record's
dist-from-bottom, `topHeight` that value plus its sphere height, and
`radiusOfCurvature` half its sphere diameter; only the above record's
pattern quantity (never a dimension) influences the segment, through the
placeholder counts.  On the concrete pair
`[SEMI-SPH sphereD=6 sphereH=3 h=0, RECT x=5 y=5 h=5]` the output is one
spherical segment with bottom height 0, top height 3, radius 3. -/
theorem spherical_below_segment :
    (∀ (dist sh sd : ℚ) (bq : Option Int) (above : CrossSection),
      segmentFor (.sph dist bq sh sd) above
        = .ok (.spherical (sd / 2) (dist + sh) dist
            (if patternDeclared above.pattern_qty || patternDeclared bq
              then 99999 else 1)
            (if patternDeclared above.pattern_qty || patternDeclared bq
              then 99999 else 1))) ∧
    to_geometry_def [.sph 0 none 3 6, .rect 5 none 5 5]
      = .ok [.spherical 3 3 0 1 1] := by
  constructor
  · exact segmentFor_sph
  · have h := segmentFor_sph 0 3 6 none (.rect 5 none 5 5)
    have h6 : (6 : ℚ) / 2 = 3 := by norm_num
    have h03 : (0 : ℚ) + 3 = 3 := by norm_num
    rw [h6, h03] at h
    have hpd : (patternDeclared (CrossSection.rect 5 none 5 5).pattern_qty
        || patternDeclared none) = false := by rfl
    rw [hpd] at h
    simp only [if_false, Bool.false_eq_true] at h
    show (pairwiseL [CrossSection.sph 0 none 3 6, CrossSection.rect 5 none 5 5]).mapM
      (fun p => segmentFor p.1 p.2) = _
    have hpw : pairwiseL [CrossSection.sph 0 none 3 6, CrossSection.rect 5 none 5 5]
        = [(CrossSection.sph 0 none 3 6, CrossSection.rect 5 none 5 5)] := rfl
    rw [hpw]
    simp [List.mapM, List.mapM.loop, h, Except.bind]

theorem getKey_map_values {α β : Type} (l : PyDict α) (f : α → β) (k : String) :
    getKey? (l.map (fun p => (p.1, f p.2))) k = (getKey? l k).map f := by
  induction l with
  | nil => rfl
  | cons p t ih =>
    by_cases hp : p.1 = k
    · simp [getKey?, hp]
    · simp [getKey?, hp, ih]

/-- C9: `process` changes nothing except well depths.  When
`innerLabwareGeometry` has exactly one entry with a nonempty section list,
the result is the input with every well's `depth` set to the first
section's `topHeight` (lookup of any well yields exactly its old dict with
`depth` replaced, and any key other than `depth` is unchanged); when the
entry count differs from one, the result is exactly the input. -/
theorem process_well_depth_frame {σ ρ : Type} (d : DepthDefinition σ ρ) :
    (d.innerLabwareGeometry.length ≠ 1 → process d = .ok d) ∧
    (∀ (gk : String) (g : PyDict (List (PyDict σ))) (s0 : PyDict σ)
        (srest : List (PyDict σ)) (th : σ),
      d.innerLabwareGeometry = [(gk, g)] →
      getKey? g "sections" = some (s0 :: srest) →
      getKey? s0 "topHeight" = some th →
      process d
        = .ok { d with
                wells := d.wells.map (fun p => (p.1, setKey p.2 "depth" th)) } ∧
      (∀ (name : String) (w : PyDict σ), getKey? d.wells name = some w →
        getKey? (d.wells.map (fun p => (p.1, setKey p.2 "depth" th))) name
          = some (setKey w "depth" th)) ∧
      (∀ (w : PyDict σ) (k : String), k ≠ "depth" →
        getKey? (setKey w "depth" th) k = getKey? w k)) := by
  constructor
  · intro hlen
    cases hgeo : d.innerLabwareGeometry with
    | nil => simp [process, hgeo]
    | cons g t =>
      cases t with
      | nil => exact absurd (by simp [hgeo]) hlen
      | cons g2 t2 => simp [process, hgeo]
  · intro gk g s0 srest th hgeo hsec hth
    refine ⟨?_, ?_, ?_⟩
    · simp [process, hgeo, hsec, hth]
    · intro name w hw
      have hmv := getKey_map_values d.wells (fun x => setKey x "depth" th) name
      rw [hw] at hmv
      simpa using hmv
    · intro w k hk
      exact getKey_setKey_other w "depth" k th hk

/-- C9 witness: the single-geometry case evaluated on a concrete
definition with one well and one section of `topHeight` 7. -/
theorem process_well_depth_frame_witness :
    (DepthDefinition.mk [("A1", [("depth", (0 : ℚ)), ("x", 2)])]
        [("g", [("sections", [[("topHeight", 7)]])])] ()).innerLabwareGeometry
      = [("g", [("sections", [[("topHeight", (7 : ℚ))]])])] ∧
    process (DepthDefinition.mk [("A1", [("depth", (0 : ℚ)), ("x", 2)])]
        [("g", [("sections", [[("topHeight", 7)]])])] ())
      = .ok (DepthDefinition.mk [("A1", [("depth", (7 : ℚ)), ("x", 2)])]
          [("g", [("sections", [[("topHeight", 7)]])])] ()) := by
  constructor
  · rfl
  · have h := (process_well_depth_frame
      (DepthDefinition.mk [("A1", [("depth", (0 : ℚ)), ("x", 2)])]
        [("g", [("sections", [[("topHeight", 7)]])])] ())).2
      "g" [("sections", [[("topHeight", (7 : ℚ))]])] [("topHeight", (7 : ℚ))] [] 7
      rfl rfl rfl
    rw [h.1]
    rfl

theorem scanStep_getKey_other {α : Type} (m : PyDict (ℕ × α)) (e : VersionEntry α)
    (name : String) (hne : name ≠ e.1) :
    getKey? (scanStep m e) name = getKey? m name := by
  unfold scanStep
  split
  · exact getKey_setKey_other m e.1 name (e.2.1, e.2.2) hne
  · split
    · exact getKey_setKey_other m e.1 name (e.2.1, e.2.2) hne
    · rfl

theorem scanStep_getKey_self_none {α : Type} (m : PyDict (ℕ × α)) (e : VersionEntry α)
    (h : getKey? m e.1 = none) :
    getKey? (scanStep m e) e.1 = some (e.2.1, e.2.2) := by
  unfold scanStep
  rw [h]
  exact getKey_setKey_same m e.1 (e.2.1, e.2.2)

theorem scanStep_getKey_self_some {α : Type} (m : PyDict (ℕ × α)) (e : VersionEntry α)
    (v0 : ℕ) (c0 : α) (h : getKey? m e.1 = some (v0, c0)) :
    getKey? (scanStep m e) e.1
      = some (if e.2.1 > v0 then (e.2.1, e.2.2) else (v0, c0)) := by
  unfold scanStep
  rw [h]
  dsimp only
  by_cases hgt : e.2.1 > v0
  · rw [if_pos hgt, if_pos hgt]
    exact getKey_setKey_same m e.1 (e.2.1, e.2.2)
  · rw [if_neg hgt, if_neg hgt]
    exact h

theorem scanHighest_spec {α : Type} :
    ∀ (entries : List (VersionEntry α)) (m : PyDict (ℕ × α)) (name : String),
      (getKey? (scanHighest entries m) name = none ↔
        getKey? m name = none ∧ ∀ e ∈ entries, e.1 ≠ name) ∧
      (∀ (v : ℕ) (c : α), getKey? (scanHighest entries m) name = some (v, c) →
        ((name, v, c) ∈ entries ∨ getKey? m name = some (v, c)) ∧
        (∀ e ∈ entries, e.1 = name → e.2.1 ≤ v) ∧
        (∀ (v0 : ℕ) (c0 : α), getKey? m name = some (v0, c0) → v0 ≤ v)) := by
  intro entries
  induction entries with
  | nil =>
    intro m name
    constructor
    · simp [scanHighest]
    · intro v c h
      have h2 : getKey? m name = some (v, c) := h
      refine ⟨Or.inr h2, by simp, ?_⟩
      intro v0 c0 h0
      rw [h2] at h0
      injection h0 with h3
      have : v0 = v := (congrArg Prod.fst h3).symm
      omega
  | cons e rest ih =>
    intro m name
    have hstep : scanHighest (e :: rest) m = scanHighest rest (scanStep m e) := rfl
    by_cases hname : e.1 = name
    · -- the head entry is for this load name; the step records it or keeps a larger one
      subst hname
      constructor
      · rw [hstep, (ih (scanStep m e) e.1).1]
        constructor
        · rintro ⟨hnone, -⟩
          cases hge : getKey? m e.1 with
          | none =>
            rw [scanStep_getKey_self_none m e hge] at hnone
            cases hnone
          | some p =>
            obtain ⟨v0, c0⟩ := p
            rw [scanStep_getKey_self_some m e v0 c0 hge] at hnone
            cases hnone
        · rintro ⟨-, hall⟩
          exact absurd rfl (hall e (List.mem_cons_self e rest))
      · intro v c h
        rw [hstep] at h
        obtain ⟨hin, hsmall, hmax⟩ := (ih (scanStep m e) e.1).2 v c h
        cases hm : getKey? m e.1 with
        | none =>
          have hself := scanStep_getKey_self_none m e hm
          have hev : e.2.1 ≤ v := hmax e.2.1 e.2.2 hself
          refine ⟨?_, ?_, ?_⟩
          · rcases hin with hin | hin
            · exact Or.inl (List.mem_cons_of_mem e hin)
            · rw [hself] at hin
              injection hin with hin2
              have hv : e.2.1 = v := congrArg Prod.fst hin2
              have hc : e.2.2 = c := congrArg Prod.snd hin2
              rw [← hv, ← hc]
              exact Or.inl (List.mem_cons_self e rest)
          · intro e2 he2 hn2
            rcases List.mem_cons.mp he2 with he2 | he2
            · rw [he2]; exact hev
            · exact hsmall e2 he2 hn2
          · intro v0 c0 h0
            cases h0
        | some p =>
          obtain ⟨v0, c0⟩ := p
          have hself := scanStep_getKey_self_some m e v0 c0 hm
          by_cases hgt : e.2.1 > v0
          · rw [if_pos hgt] at hself
            have hev : e.2.1 ≤ v := hmax e.2.1 e.2.2 hself
            refine ⟨?_, ?_, ?_⟩
            · rcases hin with hin | hin
              · exact Or.inl (List.mem_cons_of_mem e hin)
              · rw [hself] at hin
                injection hin with hin2
                have hv : e.2.1 = v := congrArg Prod.fst hin2
                have hc : e.2.2 = c := congrArg Prod.snd hin2
                rw [← hv, ← hc]
                exact Or.inl (List.mem_cons_self e rest)
            · intro e2 he2 hn2
              rcases List.mem_cons.mp he2 with he2 | he2
              · rw [he2]; exact hev
              · exact hsmall e2 he2 hn2
            · intro v1 c1 h1
              injection h1 with h2
              have hv1 : v1 = v0 := (congrArg Prod.fst h2).symm
              omega
          · rw [if_neg hgt] at hself
            have hv0v : v0 ≤ v := hmax v0 c0 hself
            refine ⟨?_, ?_, ?_⟩
            · rcases hin with hin | hin
              · exact Or.inl (List.mem_cons_of_mem e hin)
              · rw [hself] at hin
                exact Or.inr hin
            · intro e2 he2 hn2
              rcases List.mem_cons.mp he2 with he2 | he2
              · rw [he2]; omega
              · exact hsmall e2 he2 hn2
            · intro v1 c1 h1
              injection h1 with h2
              have hv1 : v1 = v0 := (congrArg Prod.fst h2).symm
              omega
    · -- the head entry is for a different load name; the step is invisible here
      have hother : getKey? (scanStep m e) name = getKey? m name :=
        scanStep_getKey_other m e name (fun h => hname h.symm)
      constructor
      · rw [hstep, (ih (scanStep m e) name).1, hother]
        constructor
        · intro ⟨h1, h2⟩
          refine ⟨h1, ?_⟩
          intro e2 he2
          rcases List.mem_cons.mp he2 with he2 | he2
          · rw [he2]; exact hname
          · exact h2 e2 he2
        · intro ⟨h1, h2⟩
          exact ⟨h1, fun e2 he2 => h2 e2 (List.mem_cons_of_mem e he2)⟩
      · intro v c h
        rw [hstep] at h
        obtain ⟨hin, hsmall, hmax⟩ := (ih (scanStep m e) name).2 v c h
        refine ⟨?_, ?_, ?_⟩
        · rcases hin with hin | hin
          · exact Or.inl (List.mem_cons_of_mem e hin)
          · rw [hother] at hin
            exact Or.inr hin
        · intro e2 he2 hn2
          rcases List.mem_cons.mp he2 with he2 | he2
          · exact absurd (he2 ▸ hn2) hname
          · exact hsmall e2 he2 hn2
        · intro v1 c1 h1
          rw [← hother] at h1
          exact hmax v1 c1 h1

/-- C3: commit-draft promotion.  For every batch of numbered versions and
every draft: when no numbered version of the draft's load name exists, the
draft is renamed to `1.json`; when the highest map holds `(v, c)` for the
name, `v` is the maximum version among that name's entries, and the draft
is deleted if its content equals `c`, else renamed to `(v + 1).json`. -/
theorem commit_draft_promotion {α : Type} [DecidableEq α]
    (entries : List (VersionEntry α)) (name : String) (draft : α) :
    (getKey? (highestVersions entries) name = none →
      (∀ e ∈ entries, e.1 ≠ name) ∧
      commitDraftAction (highestVersions entries) name draft = .renamedTo 1) ∧
    (∀ (v : ℕ) (c : α), getKey? (highestVersions entries) name = some (v, c) →
      (name, v, c) ∈ entries ∧
      (∀ e ∈ entries, e.1 = name → e.2.1 ≤ v) ∧
      (draft = c → commitDraftAction (highestVersions entries) name draft = .deleted) ∧
      (draft ≠ c →
        commitDraftAction (highestVersions entries) name draft = .renamedTo (v + 1))) := by
  have hspec := scanHighest_spec entries [] name
  constructor
  · intro hnone
    refine ⟨(hspec.1.mp hnone).2, ?_⟩
    unfold commitDraftAction
    rw [hnone]
  · intro v c h
    obtain ⟨hin, hsmall, _⟩ := hspec.2 v c h
    refine ⟨?_, hsmall, ?_, ?_⟩
    · rcases hin with hin | hin
      · exact hin
      · cases hin
    · intro heq
      unfold commitDraftAction
      rw [h]
      simp [heq]
    · intro hne
      unfold commitDraftAction
      rw [h]
      simp [hne]

/-- C3 witness: three versions of load name `"foo"` with contents `10`,
`20`, `30`; the highest is version 3 with content `20`; a draft with the
same content is deleted, evaluated through the theorem. -/
theorem commit_draft_promotion_witness :
    getKey? (highestVersions [("foo", 1, 10), ("foo", 3, 20), ("foo", 2, 30)]) "foo"
      = some (3, (20 : ℕ)) ∧
    commitDraftAction
        (highestVersions [("foo", 1, 10), ("foo", 3, 20), ("foo", 2, 30)]) "foo" 20
      = .deleted :=
  ⟨rfl,
   ((commit_draft_promotion [("foo", 1, 10), ("foo", 3, 20), ("foo", 2, 30)]
      "foo" (20 : ℕ)).2 3 20 rfl).2.2.1 rfl⟩

theorem xSpacing_spec (info : DefinitionInfo) (cc : ℕ) (xs : ℚ)
    (h : xSpacing info cc = .ok xs) :
    (cc = 1 → xs = 0) ∧ (cc ≠ 1 → info.hw_x_spacing = .num xs) := by
  unfold xSpacing at h
  by_cases hc : cc = 1
  · rw [if_pos hc] at h
    injection h with h2
    exact ⟨fun _ => h2.symm, fun hn => absurd hc hn⟩
  · rw [if_neg hc] at h
    cases hv : info.hw_x_spacing with
    | num q =>
      rw [hv] at h
      injection h with h2
      exact ⟨fun h1 => absurd h1 hc, fun _ => by rw [h2]⟩
    | str v =>
      rw [hv] at h
      cases h

theorem ySpacing_spec (info : DefinitionInfo) (rc : ℕ) (ys : ℚ)
    (h : ySpacing info rc = .ok ys) :
    (rc = 1 → ys = 0) ∧ (rc ≠ 1 → info.hw_y_spacing = .num ys) := by
  unfold ySpacing at h
  by_cases hc : rc = 1
  · rw [if_pos hc] at h
    injection h with h2
    exact ⟨fun _ => h2.symm, fun hn => absurd hc hn⟩
  · rw [if_neg hc] at h
    cases hv : info.hw_y_spacing with
    | num q =>
      rw [hv] at h
      injection h with h2
      exact ⟨fun h1 => absurd h1 hc, fun _ => by rw [h2]⟩
    | str v =>
      rw [hv] at h
      cases h

theorem rewriteWell_spec (info : DefinitionInfo) (cc rc cIdx rIdx : ℕ)
    (well w : PyDict DVal)
    (h : rewriteWell info cc rc cIdx rIdx well = .ok w) :
    ∃ (xs ys : ℚ), xSpacing info cc = .ok xs ∧ ySpacing info rc = .ok ys ∧
      getKey? w "x" = some (.num (info.hw_x_offset + xs * cIdx)) ∧
      getKey? w "y" = some (.num (info.hw_width - info.hw_y_offset - ys * rIdx)) ∧
      getKey? w "z" = some (.num (info.hw_height - info.hw_depth)) := by
  unfold rewriteWell at h
  dsimp only at h
  cases hd : rwWellDims info (setKey well "depth" (.num info.hw_depth)) with
  | error e => rw [hd] at h; cases h
  | ok w2 =>
    rw [hd] at h
    dsimp only at h
    cases hx : xSpacing info cc with
    | error e => rw [hx] at h; cases h
    | ok xs =>
      rw [hx] at h
      dsimp only at h
      cases hy : ySpacing info rc with
      | error e => rw [hy] at h; cases h
      | ok ys =>
        rw [hy] at h
        dsimp only at h
        injection h with h2
        refine ⟨xs, ys, rfl, rfl, ?_, ?_, ?_⟩
        · rw [← h2, getKey_setKey_other _ _ _ _ (by decide),
            getKey_setKey_other _ _ _ _ (by decide)]
          exact getKey_setKey_same _ _ _
        · rw [← h2, getKey_setKey_other _ _ _ _ (by decide)]
          exact getKey_setKey_same _ _ _
        · rw [← h2]
          exact getKey_setKey_same _ _ _

theorem processCell_ok_spec (info : DefinitionInfo) (cc : ℕ) (cell : WellCell)
    (ws ws1 : PyDict (PyDict DVal))
    (h : processCell info cc cell ws = .ok ws1) :
    ∃ well w, getKey? ws cell.2.2.2 = some well ∧
      rewriteWell info cc cell.2.1 cell.1 cell.2.2.1 well = .ok w ∧
      ws1 = setKey ws cell.2.2.2 w := by
  unfold processCell at h
  cases hg : getKey? ws cell.2.2.2 with
  | none => rw [hg] at h; cases h
  | some well =>
    rw [hg] at h
    dsimp only at h
    cases hr : rewriteWell info cc cell.2.1 cell.1 cell.2.2.1 well with
    | error e => rw [hr] at h; cases h
    | ok w =>
      rw [hr] at h
      dsimp only at h
      injection h with h2
      exact ⟨well, w, rfl, hr, h2.symm⟩

theorem runCells_spec (info : DefinitionInfo) (cc : ℕ) :
    ∀ (cells : List WellCell) (ws ws2 : PyDict (PyDict DVal)),
      runCells info cc cells ws = .ok ws2 →
      (cells.map (fun cell => cell.2.2.2)).Nodup →
      (∀ name, (∀ cell ∈ cells, cell.2.2.2 ≠ name) →
        getKey? ws2 name = getKey? ws name) ∧
      (∀ cell ∈ cells, ∃ well w,
        getKey? ws cell.2.2.2 = some well ∧
        rewriteWell info cc cell.2.1 cell.1 cell.2.2.1 well = .ok w ∧
        getKey? ws2 cell.2.2.2 = some w) := by
  intro cells
  induction cells with
  | nil =>
    intro ws ws2 h _
    injection h with h2
    subst h2
    exact ⟨fun name _ => rfl, by simp⟩
  | cons cell rest ih =>
    intro ws ws2 h hnodup
    unfold runCells at h
    cases hpc : processCell info cc cell ws with
    | error e => rw [hpc] at h; cases h
    | ok ws1 =>
      rw [hpc] at h
      dsimp only at h
      obtain ⟨well, w, hgw, hrw, hws1⟩ := processCell_ok_spec info cc cell ws ws1 hpc
      rw [List.map_cons, List.nodup_cons] at hnodup
      obtain ⟨hnotin, hnodup2⟩ := hnodup
      obtain ⟨ih1, ih2⟩ := ih ws1 ws2 h hnodup2
      have hrest_ne : ∀ c2 ∈ rest, c2.2.2.2 ≠ cell.2.2.2 := by
        intro c2 hc2 heq
        exact hnotin (heq ▸ List.mem_map_of_mem (fun c => c.2.2.2) hc2)
      constructor
      · intro name hne
        have h1 := ih1 name (fun c hc => hne c (List.mem_cons_of_mem _ hc))
        rw [h1, hws1,
          getKey_setKey_other _ _ _ _ (Ne.symm (hne cell (List.mem_cons_self cell rest)))]
      · intro cell2 hmem
        rcases List.mem_cons.mp hmem with hh | hh
        · subst hh
          refine ⟨well, w, hgw, hrw, ?_⟩
          have h1 := ih1 cell2.2.2.2 hrest_ne
          rw [h1, hws1]
          exact getKey_setKey_same _ _ _
        · obtain ⟨well2, w2, hg2, hr2, hw2⟩ := ih2 cell2 hh
          refine ⟨well2, w2, ?_, hr2, hw2⟩
          rw [← hg2, hws1,
            getKey_setKey_other _ _ _ _ (hrest_ne cell2 hh)]

theorem runCells_ok_forall (info : DefinitionInfo) (cc : ℕ) :
    ∀ (cells : List WellCell) (ws ws2 : PyDict (PyDict DVal)),
      runCells info cc cells ws = .ok ws2 →
      ∀ cell ∈ cells, ∃ well w,
        rewriteWell info cc cell.2.1 cell.1 cell.2.2.1 well = .ok w := by
  intro cells
  induction cells with
  | nil =>
    intro ws ws2 _ cell hmem
    cases hmem
  | cons cell rest ih =>
    intro ws ws2 h cell2 hmem
    unfold runCells at h
    cases hpc : processCell info cc cell ws with
    | error e => rw [hpc] at h; cases h
    | ok ws1 =>
      rw [hpc] at h
      dsimp only at h
      rcases List.mem_cons.mp hmem with hh | hh
      · subst hh
        obtain ⟨well, w, _, hrw, _⟩ := processCell_ok_spec info cc cell2 ws ws1 hpc
        exact ⟨well, w, hrw⟩
      · exact ih ws1 ws2 h cell2 hh

theorem withIdx_mem_of_getElem {α : Type} :
    ∀ (l : List α) (i0 i : ℕ) (a : α), l[i]? = some a → (i0 + i, a) ∈ withIdx i0 l := by
  intro l
  induction l with
  | nil =>
    intro i0 i a h
    simp at h
  | cons x t ih =>
    intro i0 i a h
    cases i with
    | zero =>
      simp at h
      subst h
      simp [withIdx]
    | succ j =>
      have hj : t[j]? = some a := by simpa using h
      have := ih (i0 + 1) j a hj
      have harith : i0 + (j + 1) = (i0 + 1) + j := by omega
      rw [harith]
      exact List.mem_cons_of_mem _ this

theorem withIdx_map_snd {α : Type} :
    ∀ (l : List α) (i0 : ℕ), (withIdx i0 l).map (fun q => q.2) = l := by
  intro l
  induction l with
  | nil => intro i0; rfl
  | cons x t ih => intro i0; simp [withIdx, ih (i0 + 1)]

theorem withIdx_flatMap_snd {α : Type} :
    ∀ (l : List (List α)) (i0 : ℕ), (withIdx i0 l).flatMap (fun p => p.2) = l.flatten := by
  intro l
  induction l with
  | nil => intro i0; rfl
  | cons x t ih => intro i0; simp [withIdx, List.flatMap_cons, ih (i0 + 1)]

theorem orderingCells_names (ordering : List (List String)) :
    (orderingCells ordering).map (fun cell => cell.2.2.2) = ordering.flatten := by
  unfold orderingCells
  rw [List.map_flatMap]
  have hinner : ∀ p : ℕ × List String,
      ((withIdx 0 p.2).map (fun q => (p.1, p.2.length, q.1, q.2))).map
          (fun cell => cell.2.2.2)
        = p.2 := by
    intro p
    rw [List.map_map]
    exact withIdx_map_snd p.2 0
  have hfun : (fun p : ℕ × List String =>
      ((withIdx 0 p.2).map (fun q => (p.1, p.2.length, q.1, q.2))).map
        (fun cell => cell.2.2.2)) = (fun p : ℕ × List String => p.2) :=
    funext hinner
  rw [hfun]
  exact withIdx_flatMap_snd ordering 0

theorem orderingCells_mem (ordering : List (List String)) (c r : ℕ)
    (col : List String) (name : String)
    (hc : ordering[c]? = some col) (hr : col[r]? = some name) :
    (c, col.length, r, name) ∈ orderingCells ordering := by
  unfold orderingCells
  apply List.mem_flatMap.mpr
  refine ⟨(c, col), ?_, ?_⟩
  · have := withIdx_mem_of_getElem ordering 0 c col hc
    simpa using this
  · apply List.mem_map.mpr
    refine ⟨(r, name), ?_, rfl⟩
    have := withIdx_mem_of_getElem col 0 r name hr
    simpa using this

theorem rewrite_definition_ok_parts (definition : DimDefinition)
    (info : DefinitionInfo) (d2 : DimDefinition)
    (hok : rewrite_definition definition info = .ok d2) :
    definition.cornerOffsetFromSlot = some ⟨0, 0, 0⟩ ∧
    ∃ ws2, runCells info definition.ordering.length
        (orderingCells definition.ordering) definition.wells = .ok ws2 ∧
      d2.wells = ws2 := by
  unfold rewrite_definition at hok
  cases hco : definition.cornerOffsetFromSlot with
  | none => rw [hco] at hok; cases hok
  | some cofs =>
    rw [hco] at hok
    dsimp only at hok
    by_cases hz : cofs = (⟨0, 0, 0⟩ : Vec3)
    · rw [if_neg (not_not.mpr hz)] at hok
      cases hrun : runCells info definition.ordering.length
          (orderingCells definition.ordering) definition.wells with
      | error e => rw [hrun] at hok; cases hok
      | ok ws2 =>
        rw [hrun] at hok
        dsimp only at hok
        injection hok with h2
        subst hz
        refine ⟨rfl, ws2, rfl, ?_⟩
        rw [← h2]
    · rw [if_pos hz] at hok
      cases hok

/-- C1: well coordinates written by `rewrite_definition`.  For every
definition (with distinct well names in its ordering) and CSV row: whenever
the rewrite succeeds, the well at column `c` and row `r` has
`x = hw_x_offset + x_spacing*c`, `y = hw_width - hw_y_offset - y_spacing*r`
and `z = hw_height - hw_depth`, where `x_spacing` is `0` when the ordering
has exactly one column and otherwise is the CSV's numeric x-spacing (and
symmetrically for `y_spacing` with the column's row count); and whenever a
well exists but the required spacing is not numeric, the rewrite fails. -/
theorem rewrite_definition_well_coordinates
    (definition : DimDefinition) (info : DefinitionInfo)
    (hnodup : definition.ordering.flatten.Nodup) :
    (∀ (d2 : DimDefinition), rewrite_definition definition info = .ok d2 →
      ∀ (c r : ℕ) (col : List String) (name : String),
        definition.ordering[c]? = some col → col[r]? = some name →
        ∃ (w : PyDict DVal) (xs ys : ℚ),
          getKey? d2.wells name = some w ∧
          (if definition.ordering.length = 1 then xs = 0
            else info.hw_x_spacing = .num xs) ∧
          (if col.length = 1 then ys = 0 else info.hw_y_spacing = .num ys) ∧
          getKey? w "x" = some (.num (info.hw_x_offset + xs * c)) ∧
          getKey? w "y" = some (.num (info.hw_width - info.hw_y_offset - ys * r)) ∧
          getKey? w "z" = some (.num (info.hw_height - info.hw_depth))) ∧
    (∀ (c : ℕ) (col : List String),
      definition.ordering[c]? = some col → col ≠ [] →
      definition.ordering.length ≠ 1 → (∀ q : ℚ, info.hw_x_spacing ≠ .num q) →
      ∃ e, rewrite_definition definition info = .error e) ∧
    (∀ (c : ℕ) (col : List String),
      definition.ordering[c]? = some col → col ≠ [] → col.length ≠ 1 →
      (∀ q : ℚ, info.hw_y_spacing ≠ .num q) →
      ∃ e, rewrite_definition definition info = .error e) := by
  refine ⟨?_, ?_, ?_⟩
  · intro d2 hok c r col name hc hr
    obtain ⟨hcorner, ws2, hrun, hwells⟩ :=
      rewrite_definition_ok_parts definition info d2 hok
    have hnodup2 :
        ((orderingCells definition.ordering).map (fun cell => cell.2.2.2)).Nodup := by
      rw [orderingCells_names]
      exact hnodup
    obtain ⟨-, hcells⟩ := runCells_spec info definition.ordering.length
      (orderingCells definition.ordering) definition.wells ws2 hrun hnodup2
    have hmem := orderingCells_mem definition.ordering c r col name hc hr
    obtain ⟨well, w, hgw, hrw, hw2⟩ := hcells _ hmem
    obtain ⟨xs, ys, hxs, hys, hx, hy, hz⟩ :=
      rewriteWell_spec info definition.ordering.length col.length c r well w hrw
    refine ⟨w, xs, ys, ?_, ?_, ?_, hx, hy, hz⟩
    · rw [hwells]
      exact hw2
    · obtain ⟨h1, h2⟩ := xSpacing_spec info definition.ordering.length xs hxs
      by_cases hcc : definition.ordering.length = 1
      · rw [if_pos hcc]; exact h1 hcc
      · rw [if_neg hcc]; exact h2 hcc
    · obtain ⟨h1, h2⟩ := ySpacing_spec info col.length ys hys
      by_cases hrc : col.length = 1
      · rw [if_pos hrc]; exact h1 hrc
      · rw [if_neg hrc]; exact h2 hrc
  · intro c col hc hcne hlen hnq
    cases hres : rewrite_definition definition info with
    | error e => exact ⟨e, rfl⟩
    | ok d2 =>
      obtain ⟨-, ws2, hrun, -⟩ := rewrite_definition_ok_parts definition info d2 hres
      obtain ⟨x, t, rfl⟩ := List.exists_cons_of_ne_nil hcne
      have hmem := orderingCells_mem definition.ordering c 0 (x :: t) x hc (by simp)
      obtain ⟨well, w, hrw⟩ := runCells_ok_forall info definition.ordering.length
        _ definition.wells ws2 hrun _ hmem
      obtain ⟨xs, ys, hxs, -, -, -, -⟩ := rewriteWell_spec info
        definition.ordering.length (x :: t).length c 0 well w hrw
      obtain ⟨-, h2⟩ := xSpacing_spec info definition.ordering.length xs hxs
      exact absurd (h2 hlen) (hnq xs)
  · intro c col hc hcne hlen hnq
    cases hres : rewrite_definition definition info with
    | error e => exact ⟨e, rfl⟩
    | ok d2 =>
      obtain ⟨-, ws2, hrun, -⟩ := rewrite_definition_ok_parts definition info d2 hres
      obtain ⟨x, t, rfl⟩ := List.exists_cons_of_ne_nil hcne
      have hmem := orderingCells_mem definition.ordering c 0 (x :: t) x hc (by simp)
      obtain ⟨well, w, hrw⟩ := runCells_ok_forall info definition.ordering.length
        _ definition.wells ws2 hrun _ hmem
      obtain ⟨xs, ys, -, hys, -, -, -⟩ := rewriteWell_spec info
        definition.ordering.length (x :: t).length c 0 well w hrw
      obtain ⟨-, h2⟩ := ySpacing_spec info (x :: t).length ys hys
      exact absurd (h2 hlen) (hnq ys)

/-- C1 witness: a two-column definition whose CSV row has a non-numeric
x-spacing; the rewrite fails, evaluated through the theorem's failure
conjunct. -/
theorem rewrite_definition_well_coordinates_witness :
    (([["A1"], ["B1"]] : List (List String)).flatten.Nodup) ∧
    (([["A1"], ["B1"]] : List (List String)).length ≠ 1) ∧
    ∃ e, rewrite_definition
        (DimDefinition.mk (some ⟨0, 0, 0⟩) [["A1"], ["B1"]]
          [("A1", [("depth", .num 40), ("diameter", .num 5)]),
           ("B1", [("depth", .num 40), ("diameter", .num 5)])] [])
        (DefinitionInfo.mk "x" 10 (.num 6) (.str "N/A") (.str "N/A") (.num 120)
          80 30 7 9 (.str "N/A") (.str "N/A"))
      = .error e :=
  ⟨by decide, by decide,
   (rewrite_definition_well_coordinates
      (DimDefinition.mk (some ⟨0, 0, 0⟩) [["A1"], ["B1"]]
        [("A1", [("depth", .num 40), ("diameter", .num 5)]),
         ("B1", [("depth", .num 40), ("diameter", .num 5)])] [])
      (DefinitionInfo.mk "x" 10 (.num 6) (.str "N/A") (.str "N/A") (.num 120)
        80 30 7 9 (.str "N/A") (.str "N/A"))
      (by decide)).2.1 0 ["A1"] (by simp) (by simp) (by decide)
     (fun q h => DVal.noConfusion h)⟩

/-- C7: the rewrite refuses a nonzero `cornerOffsetFromSlot` with an
explicit error; and in the batch loop, a missing definition or a failed
rewrite leaves the files untouched and records the failure (row index,
load name, exception), while a successful rewrite writes back only that
load name's file. -/
theorem rewrite_refusal_and_file_frame :
    (∀ (definition : DimDefinition) (info : DefinitionInfo) (v : Vec3),
      definition.cornerOffsetFromSlot = some v → v ≠ ⟨0, 0, 0⟩ →
      rewrite_definition definition info
        = .error "Definition has a nonzero cornerOffsetFromSlot and this script isn't smart enough to account for that.") ∧
    (∀ (st : BatchState) (row : ℕ) (info : DefinitionInfo),
      (getKey? st.files info.api_load_name = none →
        (processRow st row info).files = st.files ∧
        (processRow st row info).failed_rewrites
          = st.failed_rewrites ++ [(row, info.api_load_name, "No definitions found")]) ∧
      (∀ (definition : DimDefinition) (e : String),
        getKey? st.files info.api_load_name = some definition →
        rewrite_definition definition info = .error e →
        (processRow st row info).files = st.files ∧
        (processRow st row info).failed_rewrites
          = st.failed_rewrites ++ [(row, info.api_load_name, e)]) ∧
      (∀ (definition d2 : DimDefinition),
        getKey? st.files info.api_load_name = some definition →
        rewrite_definition definition info = .ok d2 →
        (processRow st row info).files = setKey st.files info.api_load_name d2 ∧
        (processRow st row info).failed_rewrites = st.failed_rewrites ∧
        (processRow st row info).successes
          = st.successes ++ [(row, info.api_load_name)])) := by
  constructor
  · intro definition info v hv hnz
    unfold rewrite_definition
    rw [hv]
    dsimp only
    rw [if_pos hnz]
  · intro st row info
    refine ⟨?_, ?_, ?_⟩
    · intro hnone
      unfold processRow
      rw [hnone]
      exact ⟨rfl, rfl⟩
    · intro definition e hsome hrew
      unfold processRow
      rw [hsome]
      dsimp only
      rw [hrew]
      exact ⟨rfl, rfl⟩
    · intro definition d2 hsome hrew
      unfold processRow
      rw [hsome]
      dsimp only
      rw [hrew]
      exact ⟨rfl, rfl, rfl⟩

/-- C7 witness: a definition with `cornerOffsetFromSlot = (1, 0, 0)` is
refused with the explicit error message. -/
theorem rewrite_refusal_and_file_frame_witness :
    (DimDefinition.mk (some ⟨1, 0, 0⟩) [] [] []).cornerOffsetFromSlot
      = some ⟨1, 0, 0⟩ ∧
    rewrite_definition (DimDefinition.mk (some ⟨1, 0, 0⟩) [] [] [])
        (DefinitionInfo.mk "x" 10 (.num 6) (.str "N/A") (.str "N/A") (.num 120)
          80 30 7 9 (.str "N/A") (.str "N/A"))
      = .error "Definition has a nonzero cornerOffsetFromSlot and this script isn't smart enough to account for that." :=
  ⟨rfl,
   rewrite_refusal_and_file_frame.1
     (DimDefinition.mk (some ⟨1, 0, 0⟩) [] [] [])
     (DefinitionInfo.mk "x" 10 (.num 6) (.str "N/A") (.str "N/A") (.num 120)
       80 30 7 9 (.str "N/A") (.str "N/A"))
     ⟨1, 0, 0⟩ rfl (fun h => one_ne_zero (congrArg Vec3.x h))⟩

theorem getKey_append {α : Type} (l1 l2 : PyDict α) (k : String) :
    getKey? (l1 ++ l2) k
      = match getKey? l1 k with
        | some v => some v
        | none => getKey? l2 k := by
  induction l1 with
  | nil => simp [getKey?]
  | cons p t ih =>
    by_cases hp : p.1 = k
    · simp [getKey?, hp]
    · simpa [getKey?, hp] using ih

theorem hasKey_append {α : Type} (l1 l2 : PyDict α) (k : String) :
    hasKey (l1 ++ l2) k = (hasKey l1 k || hasKey l2 k) := by
  induction l1 with
  | nil => simp [hasKey, getKey?]
  | cons p t ih =>
    by_cases hp : p.1 = k
    · simp [hasKey, getKey?, hp]
    · simpa [hasKey, getKey?, hp] using ih

theorem hasKey_setKey_other {α : Type} (d : PyDict α) (k k' : String) (v : α)
    (hne : k' ≠ k) : hasKey (setKey d k v) k' = hasKey d k' := by
  unfold hasKey
  rw [getKey_setKey_other d k k' v hne]

theorem rebuild_hasKey_extents (d : PyDict JValue) (e f : JValue)
    (h : hasKey d "dimensions" = true) :
    hasKey (rebuildKeys d e f) "extents" = true := by
  induction d with
  | nil => simp [hasKey, getKey?] at h
  | cons p t ih =>
    have hsplit : rebuildKeys (p :: t) e f
        = (if p.1 = "cornerOffsetFromSlot" then []
           else if p.1 = "dimensions" then [("extents", e), ("features", f)]
           else [p]) ++ rebuildKeys t e f := by
      simp [rebuildKeys, List.flatMap_cons]
    rw [hsplit, hasKey_append]
    by_cases hdim : p.1 = "dimensions"
    · have hc : ¬(p.1 = "cornerOffsetFromSlot") := by rw [hdim]; decide
      rw [if_neg hc, if_pos hdim]
      simp [hasKey, getKey?]
    · have ht : hasKey t "dimensions" = true := by
        simpa [hasKey, getKey?, hdim] using h
      rw [ih ht, Bool.or_true]

theorem migrate_to_extents_ok_extents (d d2 : PyDict JValue)
    (h : migrate_to_extents d = .ok d2) : hasKey d2 "extents" = true := by
  unfold migrate_to_extents at h
  by_cases hext : hasKey d "extents" = true
  · rw [if_pos hext] at h
    injection h with h2
    rw [← h2]
    exact hext
  · rw [if_neg hext] at h
    cases hco : getKey? d "cornerOffsetFromSlot" with
    | none => rw [hco] at h; cases h
    | some cofs =>
      rw [hco] at h
      dsimp only at h
      cases hcx : jNum? cofs "x" with
      | none => rw [hcx] at h; cases h
      | some cx =>
        rw [hcx] at h
        dsimp only at h
        cases hcy : jNum? cofs "y" with
        | none => rw [hcy] at h; cases h
        | some cy =>
          rw [hcy] at h
          dsimp only at h
          cases hcz : jNum? cofs "z" with
          | none => rw [hcz] at h; cases h
          | some cz =>
            rw [hcz] at h
            dsimp only at h
            cases hdims : getKey? d "dimensions" with
            | none => rw [hdims] at h; cases h
            | some dims =>
              rw [hdims] at h
              dsimp only at h
              cases hxd : jNum? dims "xDimension" with
              | none => rw [hxd] at h; cases h
              | some xd =>
                rw [hxd] at h
                dsimp only at h
                cases hyd : jNum? dims "yDimension" with
                | none => rw [hyd] at h; cases h
                | some yd =>
                  rw [hyd] at h
                  dsimp only at h
                  cases hzd : jNum? dims "zDimension" with
                  | none => rw [hzd] at h; cases h
                  | some zd =>
                    rw [hzd] at h
                    dsimp only at h
                    cases hw : getKey? d "wells" with
                    | none => rw [hw] at h; cases h
                    | some wv =>
                      rw [hw] at h
                      cases wv with
                      | obj wells =>
                        dsimp only at h
                        cases hfw : flipWellsJ yd wells with
                        | none => rw [hfw] at h; cases h
                        | some nw =>
                          rw [hfw] at h
                          dsimp only at h
                          injection h with h2
                          rw [← h2]
                          apply rebuild_hasKey_extents
                          rw [hasKey_setKey_other d "wells" "dimensions" _ (by decide),
                            hasKey, hdims]
                          rfl
                      | num q => dsimp only at h; cases h
                      | str sv => dsimp only at h; cases h
                      | bool b => dsimp only at h; cases h
                      | null => dsimp only at h; cases h
                      | arr xs => dsimp only at h; cases h

theorem moveWells_corner (d d1 : DimDefinition) (warns : List String)
    (h : moveWells d = .ok (d1, warns)) :
    d1.cornerOffsetFromSlot = d.cornerOffsetFromSlot := by
  unfold moveWells at h
  cases h1 : getNum? d.dimensions "yDimension" with
  | none => rw [h1] at h; cases h
  | some yD =>
    rw [h1] at h
    dsimp only at h
    cases h2 : d.ordering.mapM List.head? with
    | none => rw [h2] at h; cases h
    | some back_row =>
      rw [h2] at h
      cases h3 : d.ordering.mapM List.getLast? with
      | none => rw [h3] at h; dsimp only at h; cases h
      | some front_row =>
        rw [h3] at h
        dsimp only at h
        cases h4 : back_row.mapM (wellY? d.wells) with
        | none => rw [h4] at h; cases h
        | some back_ys =>
          rw [h4] at h
          cases h5 : front_row.mapM (wellY? d.wells) with
          | none => rw [h5] at h; dsimp only at h; cases h
          | some front_ys =>
            rw [h5] at h
            dsimp only at h
            by_cases hall : (List.zipWith (fun b f => b - f)
                (back_ys.map (fun y => yD - y)) front_ys).all
                  (fun q => decide (q = 0)) = true
            · rw [if_pos hall] at h
              cases h6 : flipWells yD d.wells with
              | none => rw [h6] at h; cases h
              | some ws2 =>
                rw [h6] at h
                dsimp only at h
                injection h with hpair
                have hd1 : ({ d with wells := ws2 } : DimDefinition) = d1 :=
                  congrArg Prod.fst hpair
                rw [← hd1]
            · rw [if_neg hall] at h
              injection h with hpair
              have hd1 : d = d1 := congrArg Prod.fst hpair
              rw [← hd1]

/-- C6 counterexample: the labware-defs migrator is not idempotent and has
no already-migrated check.  On a concrete definition with zero corner
offset, migration succeeds (deleting `cornerOffsetFromSlot`); running the
same transform on its own output raises `KeyError` instead of being a
no-op. -/
theorem migrator_idempotence_counterexample :
    migrate_labware_defs
        (DimDefinition.mk (some ⟨0, 0, 0⟩) [] [] [("yDimension", .num 0)])
      = .ok (DimDefinition.mk none [] [] [("yDimension", .num 0)], []) ∧
    migrate_labware_defs (DimDefinition.mk none [] [] [("yDimension", .num 0)])
      = .error "KeyError: cornerOffsetFromSlot" := by
  constructor
  · rfl
  · rfl

/-- C6 (amended): the extents migrator treats a definition already carrying
`extents` as a no-op and its transform is idempotent; the labware-defs
migrator has no already-migrated detection: a successful run on a
zero-corner-offset definition removes `cornerOffsetFromSlot`, and the
transform always fails (KeyError) on any definition lacking that key — in
particular on its own successful output — rather than being a no-op. -/
theorem migrators_already_migrated_amended :
    (∀ d : PyDict JValue, hasKey d "extents" = true →
      migrate_to_extents d = .ok d) ∧
    (∀ (d d2 : PyDict JValue), migrate_to_extents d = .ok d2 →
      migrate_to_extents d2 = .ok d2) ∧
    (∀ d : DimDefinition, d.cornerOffsetFromSlot = none →
      ∀ r, migrate_labware_defs d ≠ .ok r) ∧
    (∀ (d d1 : DimDefinition) (warns : List String),
      migrate_labware_defs d = .ok (d1, warns) →
      d.cornerOffsetFromSlot = some ⟨0, 0, 0⟩ →
      d1.cornerOffsetFromSlot = none) := by
  have hnoop : ∀ d : PyDict JValue, hasKey d "extents" = true →
      migrate_to_extents d = .ok d := by
    intro d h
    unfold migrate_to_extents
    rw [if_pos h]
  refine ⟨hnoop, ?_, ?_, ?_⟩
  · intro d d2 h
    exact hnoop d2 (migrate_to_extents_ok_extents d d2 h)
  · intro d hnone r h
    unfold migrate_labware_defs at h
    cases hmv : moveWells d with
    | error e => rw [hmv] at h; cases h
    | ok p =>
      obtain ⟨d1, w1⟩ := p
      rw [hmv] at h
      dsimp only at h
      have hc1 : d1.cornerOffsetFromSlot = none := by
        rw [moveWells_corner d d1 w1 hmv]
        exact hnone
      unfold removeCornerOffset at h
      rw [hc1] at h
      cases h
  · intro d d1 warns h hzero
    unfold migrate_labware_defs at h
    cases hmv : moveWells d with
    | error e => rw [hmv] at h; cases h
    | ok p =>
      obtain ⟨da, wa⟩ := p
      rw [hmv] at h
      dsimp only at h
      have hca : da.cornerOffsetFromSlot = some ⟨0, 0, 0⟩ := by
        rw [moveWells_corner d da wa hmv]
        exact hzero
      unfold removeCornerOffset at h
      rw [hca] at h
      dsimp only at h
      rw [if_pos rfl] at h
      injection h with hpair
      have hd1 : ({ da with cornerOffsetFromSlot := none } : DimDefinition) = d1 :=
        congrArg Prod.fst hpair
      rw [← hd1]

/-- C6 witness: the extents migrator's no-op branch evaluated on a concrete
definition that already has an `extents` key. -/
theorem migrators_already_migrated_amended_witness :
    hasKey [("extents", JValue.null)] "extents" = true ∧
    migrate_to_extents [("extents", JValue.null)] = .ok [("extents", JValue.null)] :=
  ⟨rfl, migrators_already_migrated_amended.1 [("extents", JValue.null)] rfl⟩

theorem mapExcept_spec {α β : Type} (f : α → Except String β) :
    ∀ (l : List α),
      (∃ out, mapExcept f l = .ok out ∧ out.length = l.length ∧
        ∀ (i : ℕ) (hi : i < l.length) (ho : i < out.length),
          f (l.get ⟨i, hi⟩) = .ok (out.get ⟨i, ho⟩)) ∨
      (∃ e, mapExcept f l = .error e ∧
        ∃ (j : ℕ) (hj : j < l.length), f (l.get ⟨j, hj⟩) = .error e ∧
          ∀ (i : ℕ), i < j → ∀ (hi : i < l.length),
            (f (l.get ⟨i, hi⟩)).isOk = true) := by
  intro l
  induction l with
  | nil =>
    left
    refine ⟨[], rfl, rfl, ?_⟩
    intro i hi ho
    simp at hi
  | cons x t ih =>
    cases hfx : f x with
    | error e =>
      right
      refine ⟨e, by simp [mapExcept, hfx], 0, by simp, ?_, ?_⟩
      · simpa using hfx
      · intro i hi0
        omega
    | ok y =>
      rcases ih with ⟨out, hmo, hlen, hall⟩ | ⟨e, hme, j, hj, hfj, hpre⟩
      · left
        refine ⟨y :: out, by simp [mapExcept, hfx, hmo], by simp [hlen], ?_⟩
        intro i hi ho
        cases i with
        | zero => simpa using hfx
        | succ i2 =>
          have hi2 : i2 < t.length := by simpa using hi
          have ho2 : i2 < out.length := by simpa using ho
          simpa using hall i2 hi2 ho2
      · right
        refine ⟨e, by simp [mapExcept, hfx, hme], j + 1, by simpa using hj, ?_, ?_⟩
        · simpa using hfj
        · intro i hij hi
          cases i with
          | zero => simp [hfx, Except.isOk, Except.toBool]
          | succ i2 =>
            have hi2 : i2 < t.length := by simpa using hi
            have hij2 : i2 < j := by omega
            simpa using hpre i2 hij2 hi2

theorem mapExcept_ok_mem {α β : Type} (f : α → Except String β) :
    ∀ (l : List α) (out : List β), mapExcept f l = .ok out →
      ∀ y ∈ out, ∃ x ∈ l, f x = .ok y := by
  intro l
  induction l with
  | nil =>
    intro out h y hy
    injection h with h2
    rw [← h2] at hy
    cases hy
  | cons x t ih =>
    intro out h y hy
    unfold mapExcept at h
    cases hfx : f x with
    | error e => rw [hfx] at h; cases h
    | ok y0 =>
      rw [hfx] at h
      dsimp only at h
      cases hmt : mapExcept f t with
      | error e => rw [hmt] at h; cases h
      | ok ys =>
        rw [hmt] at h
        dsimp only at h
        injection h with h2
        rw [← h2] at hy
        rcases List.mem_cons.mp hy with hh | hh
        · exact ⟨x, List.mem_cons_self x t, hh ▸ hfx⟩
        · obtain ⟨x2, hx2, hfx2⟩ := ih ys hmt y hh
          exact ⟨x2, List.mem_cons_of_mem x hx2, hfx2⟩

/-- C8: frustum-CSV parsing is all-or-nothing per labware band.  Whenever
`parse` succeeds, it yields exactly one `(load name, result)` per band of
`get_labware_bands`, in order; the `i`-th result carries the `i`-th band's
load name, its field names are the cells of that band's column at the
`X-SECTION` header's column index, and its result is the validation of
exactly that band's columns to the right of the field-name column, up to
the first fully blank one: either the complete list (one validated record
per such column, in order) or the first failing column's single
`ValidationError` with every earlier column validating — never a partial
list. -/
theorem parse_band_all_or_nothing (rows : List (List String))
    (cross : CSVCoordinate)
    (bands : List (String × List (List String)))
    (res : List (String × Except String (List CrossSection)))
    (hcross : find_csv_header rows "X-SECTION" = .ok cross)
    (hbands : get_labware_bands rows = .ok bands)
    (hok : parse rows = .ok res) :
    res.length = bands.length ∧
    ∀ (i : ℕ) (hb : i < bands.length) (hr : i < res.length),
      ∃ field_names,
        (zipCols (bands.get ⟨i, hb⟩).2)[cross.col_index]? = some field_names ∧
        (res.get ⟨i, hr⟩).1 = (bands.get ⟨i, hb⟩).1 ∧
        (res.get ⟨i, hr⟩).2
          = mapExcept (fun col => validateSection (dictZip field_names col))
              (columnsToParse
                ((zipCols (bands.get ⟨i, hb⟩).2).drop (cross.col_index + 1))) ∧
        ((∃ l, (res.get ⟨i, hr⟩).2 = .ok l ∧
            l.length = (columnsToParse
              ((zipCols (bands.get ⟨i, hb⟩).2).drop (cross.col_index + 1))).length ∧
            ∀ (k : ℕ)
              (hk : k < (columnsToParse
                ((zipCols (bands.get ⟨i, hb⟩).2).drop (cross.col_index + 1))).length)
              (ho : k < l.length),
              validateSection (dictZip field_names
                  ((columnsToParse
                    ((zipCols (bands.get ⟨i, hb⟩).2).drop
                      (cross.col_index + 1))).get ⟨k, hk⟩))
                = .ok (l.get ⟨k, ho⟩)) ∨
         (∃ e, (res.get ⟨i, hr⟩).2 = .error e ∧
            ∃ (j : ℕ)
              (hj : j < (columnsToParse
                ((zipCols (bands.get ⟨i, hb⟩).2).drop (cross.col_index + 1))).length),
              validateSection (dictZip field_names
                  ((columnsToParse
                    ((zipCols (bands.get ⟨i, hb⟩).2).drop
                      (cross.col_index + 1))).get ⟨j, hj⟩))
                = .error e ∧
              ∀ (k : ℕ), k < j →
                ∀ (hk : k < (columnsToParse
                  ((zipCols (bands.get ⟨i, hb⟩).2).drop
                    (cross.col_index + 1))).length),
                (validateSection (dictZip field_names
                    ((columnsToParse
                      ((zipCols (bands.get ⟨i, hb⟩).2).drop
                        (cross.col_index + 1))).get ⟨k, hk⟩))).isOk
                  = true)) := by
  unfold parse at hok
  rw [hcross] at hok
  dsimp only at hok
  rw [hbands] at hok
  dsimp only at hok
  rcases mapExcept_spec (fun band =>
      match (zipCols band.2)[cross.col_index]? with
      | none => Except.error "IndexError: no field-name column"
      | some field_names =>
        Except.ok (band.1,
          mapExcept (fun col => validateSection (dictZip field_names col))
            (columnsToParse ((zipCols band.2).drop (cross.col_index + 1)))))
      bands with ⟨out, hmo, hlen, hall⟩ | ⟨e, hme, -⟩
  · rw [hok] at hmo
    injection hmo with hout
    subst hout
    refine ⟨hlen, ?_⟩
    intro i hb hr
    have hfb := hall i hb hr
    cases hfn : (zipCols (bands.get ⟨i, hb⟩).2)[cross.col_index]? with
    | none => rw [hfn] at hfb; cases hfb
    | some field_names =>
      rw [hfn] at hfb
      dsimp only at hfb
      injection hfb with hpair
      have hfst : (res.get ⟨i, hr⟩).1 = (bands.get ⟨i, hb⟩).1 :=
        (congrArg Prod.fst hpair).symm
      have hsnd : (res.get ⟨i, hr⟩).2
          = mapExcept (fun col => validateSection (dictZip field_names col))
              (columnsToParse
                ((zipCols (bands.get ⟨i, hb⟩).2).drop (cross.col_index + 1))) :=
        (congrArg Prod.snd hpair).symm
      refine ⟨field_names, rfl, hfst, hsnd, ?_⟩
      rw [hsnd]
      exact mapExcept_spec (fun col => validateSection (dictZip field_names col))
        (columnsToParse
          ((zipCols (bands.get ⟨i, hb⟩).2).drop (cross.col_index + 1)))
  · rw [hok] at hme
    cases hme

/-- C8 witness: a concrete transposed CSV with one labware band holding a
single `RECT` column.  The `X-SECTION` header is at (0, 1), the band is
the eight rows below the header with load name `plate1`, and `parse`
yields the complete validated section list for it; the per-band
correspondence follows from the theorem. -/
theorem parse_band_all_or_nothing_witness :
    find_csv_header
        [["API Load Name", "X-SECTION", ""],
         ["plate1", "TYPE", "RECT"],
         ["", "DIST FROM BOTTOM", "0"],
         ["", "PATTERN QTY", ""],
         ["", "X DIM", "5"],
         ["", "Y DIM", "5"],
         ["", "DIAMETER", ""],
         ["", "SPHERE HEIGHT", ""],
         ["", "SPHERE DIAMETER", ""]] "X-SECTION"
      = .ok ⟨0, 1⟩ ∧
    get_labware_bands
        [["API Load Name", "X-SECTION", ""],
         ["plate1", "TYPE", "RECT"],
         ["", "DIST FROM BOTTOM", "0"],
         ["", "PATTERN QTY", ""],
         ["", "X DIM", "5"],
         ["", "Y DIM", "5"],
         ["", "DIAMETER", ""],
         ["", "SPHERE HEIGHT", ""],
         ["", "SPHERE DIAMETER", ""]]
      = .ok [("plate1",
          [["plate1", "TYPE", "RECT"],
           ["", "DIST FROM BOTTOM", "0"],
           ["", "PATTERN QTY", ""],
           ["", "X DIM", "5"],
           ["", "Y DIM", "5"],
           ["", "DIAMETER", ""],
           ["", "SPHERE HEIGHT", ""],
           ["", "SPHERE DIAMETER", ""]])] ∧
    parse
        [["API Load Name", "X-SECTION", ""],
         ["plate1", "TYPE", "RECT"],
         ["", "DIST FROM BOTTOM", "0"],
         ["", "PATTERN QTY", ""],
         ["", "X DIM", "5"],
         ["", "Y DIM", "5"],
         ["", "DIAMETER", ""],
         ["", "SPHERE HEIGHT", ""],
         ["", "SPHERE DIAMETER", ""]]
      = .ok [("plate1",
          .ok [CrossSection.rect ((0 : ℕ) : ℚ) none ((5 : ℕ) : ℚ) ((5 : ℕ) : ℚ)])] ∧
    ([("plate1",
        Except.ok [CrossSection.rect ((0 : ℕ) : ℚ) none ((5 : ℕ) : ℚ) ((5 : ℕ) : ℚ)])]
      : List (String × Except String (List CrossSection))).length
      = ([("plate1",
          [["plate1", "TYPE", "RECT"],
           ["", "DIST FROM BOTTOM", "0"],
           ["", "PATTERN QTY", ""],
           ["", "X DIM", "5"],
           ["", "Y DIM", "5"],
           ["", "DIAMETER", ""],
           ["", "SPHERE HEIGHT", ""],
           ["", "SPHERE DIAMETER", ""]])]
         : List (String × List (List String))).length :=
  ⟨rfl, rfl, rfl,
   (parse_band_all_or_nothing
     [["API Load Name", "X-SECTION", ""],
      ["plate1", "TYPE", "RECT"],
      ["", "DIST FROM BOTTOM", "0"],
      ["", "PATTERN QTY", ""],
      ["", "X DIM", "5"],
      ["", "Y DIM", "5"],
      ["", "DIAMETER", ""],
      ["", "SPHERE HEIGHT", ""],
      ["", "SPHERE DIAMETER", ""]]
     ⟨0, 1⟩
     [("plate1",
        [["plate1", "TYPE", "RECT"],
         ["", "DIST FROM BOTTOM", "0"],
         ["", "PATTERN QTY", ""],
         ["", "X DIM", "5"],
         ["", "Y DIM", "5"],
         ["", "DIAMETER", ""],
         ["", "SPHERE HEIGHT", ""],
         ["", "SPHERE DIAMETER", ""]])]
     [("plate1",
        .ok [CrossSection.rect ((0 : ℕ) : ℚ) none ((5 : ℕ) : ℚ) ((5 : ℕ) : ℚ)])]
     rfl rfl rfl).1⟩

end Labware
